import Mathlib

/-!
A verification development for the Repack scheduling and state engine.

The Python sources are shallowly embedded: pure functions become Lean
functions, the `StateManager`'s dict becomes an association list with
Python-dict update semantics, the engine's `run` becomes a function from a
kit list, a request, the persisted CSV content and a job-outcome oracle to a
run outcome (an error, the event trace of executor/state interactions, the
final state map and the list of submissions).  External effects are made
explicit parameters: the status file is `Option (List (List String))`
(`none` = missing or unreadable), job success is an oracle
`String → Bool`, and the executor is modelled by its contract (each
submitted job's completion callback fires exactly once during `wait`).
-/

namespace Repack

/-! ## Association-list helpers with Python-dict semantics
`setKey` updates an existing key in place (keeping its position, as Python
dicts do) and appends a missing key at the end. -/

def getKey {α : Type} : List (String × α) → String → Option α
  | [], _ => none
  | (k, v) :: rest, key => if k = key then some v else getKey rest key

def setKey {α : Type} : List (String × α) → String → α → List (String × α)
  | [], key, v => [(key, v)]
  | (k, w) :: rest, key, v =>
      if k = key then (k, v) :: rest else (k, w) :: setKey rest key v

/-! ## Data model (`repack/core/kit.py`, `repack/core/request.py`,
`repack/core/state.py`, `repack/executor/base.py`) -/

/-- `TargetStatus` enumeration from `repack/core/state.py`. -/
inductive TargetStatus
  | PENDING
  | RUNNING
  | PASS
  | FAIL
deriving DecidableEq, Repr

/-- The `.value` string of each enum member. -/
def TargetStatus.value : TargetStatus → String
  | .PENDING => "PENDING"
  | .RUNNING => "RUNNING"
  | .PASS => "PASS"
  | .FAIL => "FAIL"

/-- `TargetStatus(status_str)` in Python raises `ValueError` on an unknown
string; `StateManager` maps that to `PENDING`. -/
def parseStatus (s : String) : TargetStatus :=
  if s = "PENDING" then .PENDING
  else if s = "RUNNING" then .RUNNING
  else if s = "PASS" then .PASS
  else if s = "FAIL" then .FAIL
  else .PENDING

/-- `KitTarget` dataclass: kit name plus optional PVT. -/
structure KitTarget where
  kit_name : String
  pvt : Option String
deriving DecidableEq, Repr

/-- `KitTarget.id`: `"<kit_name>::<pvt>"` when `self.pvt` is truthy
(non-`None` and non-empty), else `"<kit_name>::ALL"`. -/
def KitTarget.id (t : KitTarget) : String :=
  match t.pvt with
  | some p => if p = "" then t.kit_name ++ "::ALL" else t.kit_name ++ "::" ++ p
  | none => t.kit_name ++ "::ALL"

/-- `RepackRequest` dataclass (immutable per-run configuration). -/
structure RepackRequest where
  library_name : String := ""
  pvts : List String := []
  corners : List String := []
  cells : List String := []
  output_root : String := ""

/-- A `Kit`: its abstract methods become record fields (`get_dependencies`
takes no argument in the source, so it is a plain list here). -/
structure Kit where
  name : String
  get_output_path : RepackRequest → String
  get_targets : RepackRequest → List KitTarget
  get_dependencies : List String
  construct_command : KitTarget → RepackRequest → List String

/-- `Job` dataclass from `repack/executor/base.py`. -/
structure Job where
  id : String
  command : List String
  cwd : String
  log_path : String
  environment : List (String × String) := []
deriving DecidableEq, Repr

/-! ## StateManager (`repack/core/state.py`) -/

/-- In-memory `self.state` dict: `target_id → TargetStatus`. -/
abbrev StateMap := List (String × TargetStatus)

/-- `StateManager.get_status`: defaults to `PENDING` when absent. -/
def get_status (m : StateMap) (target_id : String) : TargetStatus :=
  (getKey m target_id).getD .PENDING

/-- `StateManager.set_status` (the synchronous `_flush` is captured by
`serializeState` below where the file content matters). -/
def set_status (m : StateMap) (target_id : String) (st : TargetStatus) : StateMap :=
  setKey m target_id st

/-- `StateManager._flush`: CSV header row then one `[id, status]` row per
entry, in dict order. -/
def serializeState (m : StateMap) : List (List String) :=
  ["id", "status"] :: m.map (fun p => [p.1, p.2.value])

/-- Loading the data rows of the status file into `loaded_state`: rows with
fewer than two fields are skipped, unknown status strings degrade to
`PENDING`, duplicate ids keep the last row (dict assignment). -/
def loadRows : List (List String) → StateMap → StateMap
  | [], acc => acc
  | row :: rest, acc =>
      match row with
      | tid :: status_str :: _ => loadRows rest (setKey acc tid (parseStatus status_str))
      | _ => loadRows rest acc

/-- Result of `StateManager.initialize`: the reconciled in-memory state, the
returned boolean, how often the clean hook was invoked, and the status-file
content written by the final `_flush`. -/
structure SMResult where
  state : StateMap
  is_incremental : Bool
  cleanCalls : Nat
  statusFile : List (List String)
deriving DecidableEq, Repr

/-- Step 3 of `StateManager.initialize`: every target of `all_targets` not
already present is added as `PENDING`. -/
def reconcile (st : StateMap) (all_targets : List KitTarget) : StateMap :=
  all_targets.foldl
    (fun m t => if (getKey m t.id).isSome then m else setKey m t.id .PENDING) st

/-- `StateManager.initialize`.  `fileRows = none` models a missing or
unreadable status file (the `except` path); `some rows` models a readable
CSV whose parsed rows are `rows`.  The incremental path is taken exactly
when the first row equals `["id", "status"]`.  `hasCleanHook` records
whether a `clean_callback` argument was supplied. -/
def smInitialState (fileRows : Option (List (List String)))
    (all_targets : List KitTarget) (hasCleanHook : Bool) : SMResult :=
  let loaded : Option StateMap :=
    match fileRows with
    | none => none
    | some rows =>
        match rows with
        | [] => none
        | header :: dataRows =>
            if header = ["id", "status"] then some (loadRows dataRows []) else none
  match loaded with
  | some st =>
      let st2 := reconcile st all_targets
      ⟨st2, true, 0, serializeState st2⟩
  | none =>
      let st2 := reconcile [] all_targets
      ⟨st2, false, if hasCleanHook then 1 else 0, serializeState st2⟩

/-! ## Engine (`repack/engine/manager.py`)

`RepackEngine.run` is embedded as a function producing a `RunOutcome`: an
optional raised error, the ordered trace of executor submissions and
status writes, the final state map, and the submission list.  The executor
is abstracted by its contract (§4.3 of the spec, matching the engine-level
tests' `MockExecutor`): `submit` records the job, and `wait` invokes each
submitted job's `on_complete` callback exactly once, with the success
boolean supplied by an outcome oracle. -/

/-- One observable engine action, in program order. -/
inductive Event
  | submitEv (id : String) (deps : List String)
  | statusEv (id : String) (st : TargetStatus)
  | callbackEv (id : String) (ok : Bool)
deriving DecidableEq, Repr

/-- `self.kits = {k.name: k for k in kits}`: deduplicate by name, a later
duplicate overwrites the value but keeps the first position. -/
def kitsDict (kits : List Kit) : List Kit :=
  kits.foldl
    (fun acc k =>
      if acc.any (fun a => a.name == k.name) then
        acc.map (fun a => if a.name == k.name then k else a)
      else acc ++ [k]) []

/-- Dict lookup `self.kits[name]` (as an `Option`; the `KeyError` raise is
handled in `run`). -/
def lookupKit (ks : List Kit) (name : String) : Option Kit :=
  ks.find? (fun k => k.name == name)

/-- Step 1: `all_targets`, accumulated over `self.kits.values()`. -/
def allTargetsOf (kits : List Kit) (request : RepackRequest) : List KitTarget :=
  (kitsDict kits).flatMap (fun k => k.get_targets request)

/-- `kit_targets_map.get(dep_kit_name, [])`. -/
def kitTargetsGet (kits : List Kit) (request : RepackRequest) (name : String) :
    List KitTarget :=
  match lookupKit (kitsDict kits) name with
  | some k => k.get_targets request
  | none => []

/-- `target_map[tid]`: the last target with a given id wins (dict
assignment in step 1's loop). -/
def targetMapGet (kits : List Kit) (request : RepackRequest) (tid : String) :
    Option KitTarget :=
  (allTargetsOf kits request).reverse.find? (fun t => t.id == tid)

/-- Step 3's PVT-match condition:
`dt.pvt == target.pvt or dt.pvt == "ALL" or target.pvt == "ALL"`.
In Python `None == "ALL"` is `False`, so only the literal string `"ALL"`
satisfies the last two disjuncts. -/
def pvtMatch (dt target : KitTarget) : Bool :=
  dt.pvt == target.pvt || dt.pvt == some "ALL" || target.pvt == some "ALL"

/-- Step 3: the derived target-level edge list `(d.id, t.id)`, in the
program's append order.  `graph_out`/`graph_in` are its two projections. -/
def edgeListOf (kits : List Kit) (request : RepackRequest) :
    List (String × String) :=
  (allTargetsOf kits request).flatMap (fun target =>
    match lookupKit (kitsDict kits) target.kit_name with
    | none => []
    | some kit =>
        kit.get_dependencies.flatMap (fun dep_kit_name =>
          (kitTargetsGet kits request dep_kit_name).filterMap (fun dt =>
            if pvtMatch dt target then some (dt.id, target.id) else none)))

/-- `graph_in[v]` as derived from an edge list: sources of edges into `v`,
in append order (with multiplicity). -/
def edgesIn (edges : List (String × String)) (v : String) : List String :=
  (edges.filter (fun e => e.2 == v)).map (fun e => e.1)

/-- `graph_out[u]`: targets of edges out of `u`, in append order. -/
def edgesOut (edges : List (String × String)) (u : String) : List String :=
  (edges.filter (fun e => e.1 == u)).map (fun e => e.2)

/-! ### Step 4: Kahn's algorithm.
`in_degree` is a total map (`String → Int`, matching Python's unbounded
ints: duplicate target ids can drive a cell negative).  The fuel bounds the
number of pops; `2 * |all_targets| + 2` always suffices, and the theorems
below never rely on exhaustion. -/

/-- The inner `for v in graph_out[u]` loop: decrement each neighbour's
in-degree in order, appending a neighbour to the queue accumulator when its
cell becomes exactly `0`. -/
def kahnStep : List String → (String → Int) → List String →
    ((String → Int) × List String)
  | [], indeg, qacc => (indeg, qacc)
  | v :: vs, indeg, qacc =>
      let d := indeg v - 1
      let indeg' := fun x => if x = v then d else indeg x
      kahnStep vs indeg' (if d = 0 then qacc ++ [v] else qacc)

/-- The `while queue` loop: pop left, emit, process out-edges. -/
def kahnLoop (gOut : String → List String) :
    Nat → (String → Int) → List String → List String → List String
  | 0, _, _, sorted => sorted
  | _ + 1, _, [], sorted => sorted
  | fuel + 1, indeg, u :: rest, sorted =>
      let p := kahnStep (gOut u) indeg []
      kahnLoop gOut fuel p.1 (rest ++ p.2) (sorted ++ [u])

/-- Initial in-degrees: `len(graph_in[tid])`, `0` for ids without entries. -/
def indegInit (edges : List (String × String)) : String → Int :=
  fun v => ((edgesIn edges v).length : Int)

/-- `sorted_targets` produced by step 4. -/
def sortedTargetsOf (kits : List Kit) (request : RepackRequest) : List String :=
  let all_targets := allTargetsOf kits request
  let edges := edgeListOf kits request
  let indeg0 := indegInit edges
  let queue0 := (all_targets.map (fun t => t.id)).filter (fun tid => indeg0 tid == 0)
  kahnLoop (edgesOut edges) (2 * all_targets.length + 2) indeg0 queue0 []

/-! ### Step 5: dispatch, and step 6: wait. -/

/-- Mutable engine state during the dispatch loop. -/
structure DispatchState where
  state : StateMap
  submitted : List String
  submissions : List (Job × List String)
  events : List Event
deriving Repr

/-- One iteration of the dispatch loop for target id `tid`:
skip when the current status is `PASS`; otherwise build the job, call
`executor.submit(job, run_deps, on_complete)`, add `tid` to the submitted
set, and only then `set_status(tid, RUNNING)` (the source order). -/
def dispatchOne (kits : List Kit) (request : RepackRequest)
    (acc : DispatchState) (tid : String) : Except String DispatchState :=
  let status := get_status acc.state tid
  if status = .PASS then .ok acc
  else
    match targetMapGet kits request tid with
    | none => .error ("KeyError: " ++ tid)
    | some target =>
        match lookupKit (kitsDict kits) target.kit_name with
        | none => .error ("KeyError: " ++ target.kit_name)
        | some kit =>
            let run_deps := (edgesIn (edgeListOf kits request) tid).filter
              (fun dep_tid => acc.submitted.contains dep_tid)
            let command := kit.construct_command target request
            let out_path := kit.get_output_path request
            let log_path := out_path ++ "/" ++ tid ++ ".log"
            let job : Job :=
              { id := tid, command := command, cwd := out_path, log_path := log_path }
            .ok
              { state := set_status acc.state tid .RUNNING
                submitted :=
                  if acc.submitted.contains tid then acc.submitted
                  else acc.submitted ++ [tid]
                submissions := acc.submissions ++ [(job, run_deps)]
                events :=
                  acc.events ++ [.submitEv tid run_deps, .statusEv tid .RUNNING] }

/-- Step 6: `executor.wait(list(submitted_jobs))` under the executor
contract: each submitted job's `on_complete(id, success)` fires exactly
once, writing `PASS` or `FAIL` through the `StateManager`
(`RepackEngine._make_on_complete`). -/
def waitStep (oracle : String → Bool) (acc : DispatchState) (tid : String) :
    DispatchState :=
  let ok := oracle tid
  let st : TargetStatus := if ok then .PASS else .FAIL
  { acc with
      state := set_status acc.state tid st
      events := acc.events ++ [.callbackEv tid ok, .statusEv tid st] }

def waitPhase (oracle : String → Bool) (ds : DispatchState) : DispatchState :=
  ds.submitted.foldl (waitStep oracle) ds

/-- The observable outcome of `RepackEngine.run`. -/
structure RunOutcome where
  error : Option String := none
  events : List Event := []
  finalState : StateMap := []
  submissions : List (Job × List String) := []
  submitted : List String := []
deriving Repr

/-- The state right after step 2 (`self.state_manager.initialize(all_targets)`,
with no clean hook forwarded by the engine). -/
def initStateOf (kits : List Kit) (request : RepackRequest)
    (fileRows : Option (List (List String))) : StateMap :=
  (smInitialState fileRows (allTargetsOf kits request) false).state

/-- The dispatch loop over the topological order. -/
def dispatchAll (kits : List Kit) (request : RepackRequest)
    (fileRows : Option (List (List String))) : Except String DispatchState :=
  (sortedTargetsOf kits request).foldlM (dispatchOne kits request)
    { state := initStateOf kits request fileRows
      submitted := [], submissions := [], events := [] }

/-- `RepackEngine.run`.  A target whose `kit_name` is not a registered kit
raises `KeyError` during step 3 (after state init, before any submission);
a topological order shorter than `all_targets` raises the cycle error
before any submission; otherwise the residual targets are dispatched and
step 6 drains all callbacks. -/
def RepackEngine.run (kits : List Kit) (request : RepackRequest)
    (fileRows : Option (List (List String))) (oracle : String → Bool) :
    RunOutcome :=
  let all_targets := allTargetsOf kits request
  match all_targets.find? (fun t => (lookupKit (kitsDict kits) t.kit_name).isNone) with
  | some t =>
      { error := some ("KeyError: " ++ t.kit_name)
        finalState := initStateOf kits request fileRows }
  | none =>
      if (sortedTargetsOf kits request).length = all_targets.length then
        match dispatchAll kits request fileRows with
        | .error e =>
            { error := some e, finalState := initStateOf kits request fileRows }
        | .ok ds =>
            let fin := waitPhase oracle ds
            { error := none, events := fin.events, finalState := fin.state
              submissions := fin.submissions, submitted := fin.submitted }
      else
        { error := some "Cycle detected in kit dependencies"
          finalState := initStateOf kits request fileRows }

/-! ## Local executor (`repack/executor/local.py`)

The executor's tables are guarded by a single non-reentrant
`threading.Lock`; each lock region is one atomic step here.
`concurrent.futures.Future.set_result`/`set_exception` invoke every
registered done-callback *synchronously in the completing thread*.  The
registered callback is `_on_dependency_complete`, whose body acquires
`self.lock`; when `set_exception` is executed *while already holding the
lock* (the dependency-failure branch of `_on_dependency_complete`), any
registered done-callback therefore re-acquires a non-reentrant lock held by
the same thread and the thread blocks forever.  That stuck configuration is
modelled by the `deadlocked` flag: once set, nothing later in the blocked
call chain executes. -/

/-- Delete a key from an association list (`del d[k]`). -/
def delKey {α : Type} : List (String × α) → String → List (String × α)
  | [], _ => []
  | (k, v) :: rest, key => if k = key then rest else (k, v) :: delKey rest key

/-- State of a `concurrent.futures.Future`: not yet resolved, resolved by
`set_result`, or resolved by `set_exception`. -/
inductive FutState
  | notDone
  | success
  | failed
deriving DecidableEq, Repr

/-- The `LocalExecutor`'s shared tables plus observation lists:
`dispatched` records `pool.submit(self._run_job, ...)` calls, `executed`
records jobs whose subprocess actually ran, `cbFired` records `on_complete`
invocations in order. -/
structure LocalState where
  futures : List (String × FutState)
  pending_dependencies : List (String × List String)
  hooks : List (String × List String)
  dispatched : List String
  executed : List String
  cbFired : List (String × Bool)
  deadlocked : Bool
deriving DecidableEq, Repr

/-- The fresh, empty executor. -/
def LocalState.empty : LocalState := ⟨[], [], [], [], [], [], false⟩

/-- The dependency scan inside `LocalExecutor.submit`: unknown deps are
ignored, a done-and-failed dep sets `dependency_failed` and breaks, a
done-and-successful dep is dropped, an in-flight dep joins the `pending`
set. -/
def scanDeps (futures : List (String × FutState)) :
    List String → List String → List String × Bool
  | [], pending => (pending, false)
  | dep :: rest, pending =>
      match getKey futures dep with
      | none => scanDeps futures rest pending
      | some .success => scanDeps futures rest pending
      | some .failed => (pending, true)
      | some .notDone =>
          scanDeps futures rest
            (if pending.contains dep then pending else pending ++ [dep])

/-- `LocalExecutor._on_dependency_complete(job_id, dep_id)` (one run of the
done-callback registered on `dep_id`'s future, entered with the lock
free). -/
def onDepComplete (st : LocalState) (job_id dep_id : String) : LocalState :=
  if st.deadlocked then st
  else
    let dep_failed := getKey st.futures dep_id == some .failed
    let jf := getKey st.futures job_id
    if jf == some .success || jf == some .failed then st
    else if dep_failed then
      let st1 := { st with futures := setKey st.futures job_id .failed }
      if ((getKey st.hooks job_id).getD []).isEmpty then
        { st1 with
            pending_dependencies := delKey st1.pending_dependencies job_id
            cbFired := st1.cbFired ++ [(job_id, false)] }
      else
        { st1 with deadlocked := true }
    else
      match getKey st.pending_dependencies job_id with
      | none => st
      | some deps =>
          let deps' := deps.filter (fun d => d ≠ dep_id)
          if deps'.isEmpty then
            { st with
                pending_dependencies := delKey st.pending_dependencies job_id
                dispatched := st.dispatched ++ [job_id] }
          else
            { st with
                pending_dependencies := setKey st.pending_dependencies job_id deps' }

/-- `LocalExecutor._run_job` for a dispatched job, with `outcome` the truth
of `returncode == 0`: run the subprocess, resolve the future (which fires
the registered done-callbacks synchronously, lock not held here), then in
the `finally` block invoke `on_complete` — unless a done-callback
deadlocked this thread first. -/
def runJob (st : LocalState) (job_id : String) (outcome : Bool) : LocalState :=
  if st.deadlocked then st
  else
    let st1 := { st with executed := st.executed ++ [job_id] }
    let st2 :=
      { st1 with
          futures := setKey st1.futures job_id (if outcome then .success else .failed) }
    let st3 :=
      ((getKey st2.hooks job_id).getD []).foldl (fun s h => onDepComplete s h job_id) st2
    if st3.deadlocked then st3
    else { st3 with cbFired := st3.cbFired ++ [(job_id, outcome)] }

/-- `LocalExecutor.submit(job, dependency_job_ids, on_complete)`. -/
def LocalExecutor.submit (st : LocalState) (job_id : String) (deps : List String) :
    LocalState :=
  if st.deadlocked then st
  else
    let futures1 := setKey st.futures job_id .notDone
    let scan := scanDeps futures1 deps []
    if scan.2 then
      { st with
          futures := setKey futures1 job_id .failed
          cbFired := st.cbFired ++ [(job_id, false)] }
    else if scan.1.isEmpty then
      { st with futures := futures1, dispatched := st.dispatched ++ [job_id] }
    else
      { st with
          futures := futures1
          pending_dependencies := setKey st.pending_dependencies job_id scan.1
          hooks :=
            scan.1.foldl
              (fun h dep => setKey h dep ((getKey h dep).getD [] ++ [job_id])) st.hooks }

/-- The transitive-failure scenario of spec §4.3 (E2): a three-job chain
`jobA ← jobB ← jobC`, all submitted before `jobA` finishes, and `jobA`'s
subprocess fails. -/
def localChainDemo : LocalState :=
  let st1 := LocalExecutor.submit LocalState.empty "jobA" []
  let st2 := LocalExecutor.submit st1 "jobB" ["jobA"]
  let st3 := LocalExecutor.submit st2 "jobC" ["jobB"]
  runJob st3 "jobA" false

/-! ## Cluster executor (`repack/executor/lsf.py`) -/

/-- The `bsub` argv built by `LSFExecutor.submit`, as a function of the
recorded `target_to_lsf` map, the job, the dependency ids and the
site-specific flags.  `if lsf_id:` in Python is false for both a missing
mapping and the empty string, so such deps are silently dropped. -/
def buildBsub (target_to_lsf : List (String × String)) (job : Job)
    (dependency_job_ids : List String) (site_flags : List String) : List String :=
  let base := ["bsub", "-o", job.log_path, "-e", job.log_path, "-J", job.id]
  let cmd1 :=
    if dependency_job_ids.isEmpty then base
    else
      let lsf_deps := dependency_job_ids.filterMap (fun dep_tid =>
        match getKey target_to_lsf dep_tid with
        | some s => if s = "" then none else some s
        | none => none)
      if lsf_deps.isEmpty then base
      else
        base ++
          ["-w", String.intercalate " && " (lsf_deps.map (fun jid => "done(" ++ jid ++ ")"))]
  cmd1 ++ site_flags ++ [String.intercalate " " job.command]

/-- Match `re.search(r"Job <(\d+)>", output)` at one start position:
`Job <`, then at least one digit, then `>`; the captured group is the digit
run. -/
def matchJobIdAt (cs : List Char) : Option String :=
  match cs with
  | 'J' :: 'o' :: 'b' :: ' ' :: '<' :: rest =>
      let ds := rest.takeWhile (fun c => c.isDigit)
      if ds.isEmpty then none
      else if (rest.drop ds.length).head? = some '>' then some (String.mk ds)
      else none
  | _ => none

/-- `re.search`: leftmost position at which the pattern matches. -/
def searchJobId : List Char → Option String
  | [] => none
  | c :: rest =>
      match matchJobIdAt (c :: rest) with
      | some s => some s
      | none => searchJobId rest

/-- The backend job id parsed from the submission's stdout. -/
def parseLsfJobId (output : String) : Option String :=
  searchJobId output.data

/-- `LSFExecutor._execute_bsub`, as a function of the stdout produced by
the spawned `bsub` process: parse the backend id or raise. -/
def executeBsub (output : String) : Except String String :=
  match parseLsfJobId output with
  | some jid => .ok jid
  | none => .error ("Could not parse LSF Job ID from: " ++ output)

/-- One polling pass of `LSFExecutor.wait` over the pending set: a target
with no recorded (or falsy) backend id is added to `done` with no callback;
otherwise `DONE`/`EXIT` fire the callback (if registered) with
`True`/`False` and add to `done`; anything else stays pending.  Returns the
`done` set and the callback invocations of this pass. -/
def lsfPollOne (target_to_lsf : List (String × String)) (cb_ids : List String)
    (status : String → String) (acc : List String × List (String × Bool))
    (tid : String) : List String × List (String × Bool) :=
  match getKey target_to_lsf tid with
  | none => (acc.1 ++ [tid], acc.2)
  | some lsf_id =>
      if lsf_id = "" then (acc.1 ++ [tid], acc.2)
      else
        let s := status lsf_id
        if s = "DONE" then
          (acc.1 ++ [tid],
           acc.2 ++ if cb_ids.contains tid then [(tid, true)] else [])
        else if s = "EXIT" then
          (acc.1 ++ [tid],
           acc.2 ++ if cb_ids.contains tid then [(tid, false)] else [])
        else acc

def lsfWaitPass (target_to_lsf : List (String × String)) (cb_ids : List String)
    (status : String → String) (pending : List String) :
    List String × List (String × Bool) :=
  pending.foldl (lsfPollOne target_to_lsf cb_ids status) ([], [])

/-- The `while pending_jobs:` loop of `LSFExecutor.wait`.  `statuses round`
gives the backend status of each backend id at a given polling round; the
fuel bounds the number of polls (the sleep is dropped).  Returns the
pending set when the fuel ran out (`[]` iff the loop exited) and all
callback invocations in order. -/
def lsfWaitLoop (target_to_lsf : List (String × String)) (cb_ids : List String)
    (statuses : Nat → String → String) :
    Nat → Nat → List String → List String × List (String × Bool)
  | 0, _, pending => (pending, [])
  | fuel + 1, round, pending =>
      if pending.isEmpty then ([], [])
      else
        let p := lsfWaitPass target_to_lsf cb_ids (statuses round) pending
        let remaining := pending.filter (fun tid => !(p.1.contains tid))
        let r := lsfWaitLoop target_to_lsf cb_ids statuses fuel (round + 1) remaining
        (r.1, p.2 ++ r.2)

/-- `LSFExecutor.wait(job_ids)`: `set(job_ids)` keeps one copy of each id. -/
def lsfWait (target_to_lsf : List (String × String)) (cb_ids : List String)
    (statuses : Nat → String → String) (fuel : Nat) (job_ids : List String) :
    List String × List (String × Bool) :=
  let pending0 := job_ids.foldl (fun acc i => if acc.contains i then acc else acc ++ [i]) []
  lsfWaitLoop target_to_lsf cb_ids statuses fuel 0 pending0

/-! ## Concrete configurations used by counterexamples and witnesses -/

/-- A kit in the style of the tests' `MockKit`/demo kits. -/
def mkKit (name : String) (deps : List String) (pvtL : List (Option String)) : Kit :=
  { name := name
    get_output_path := fun _ => "/tmp/" ++ name
    get_targets := fun _ => pvtL.map (fun p => ⟨name, p⟩)
    get_dependencies := deps
    construct_command := fun t _ => ["echo", t.id] }

/-- The request used by the concrete runs. -/
def reqD : RepackRequest := { pvts := ["default"] }

/-- A single independent kit. -/
def oneKit : List Kit := [mkKit "KitA" [] [some "p"]]

/-- The engine tests' three-kit chain: `KitA` depends on `KitB` depends on
`KitC`, one target each with PVT `default`. -/
def chainKits : List Kit :=
  [mkKit "KitA" ["KitB"] [some "default"],
   mkKit "KitB" ["KitC"] [some "default"],
   mkKit "KitC" [] [some "default"]]

/-- A dependency target without PVT (identity `KD::ALL`) and a PVT-scoped
dependent target. -/
def noneBarrierKits : List Kit :=
  [mkKit "KD" [] [none], mkKit "KT" ["KD"] [some "p1"]]

/-- A kit-level dependency cycle whose targets share a PVT (so the derived
target graph is cyclic too). -/
def cycKitsSame : List Kit :=
  [mkKit "KX" ["KY"] [some "p"], mkKit "KY" ["KX"] [some "p"]]

/-- A kit-level dependency cycle whose targets have disjoint PVTs (the
derived target graph has no edge at all). -/
def cycKitsDisjoint : List Kit :=
  [mkKit "KX" ["KY"] [some "x"], mkKit "KY" ["KX"] [some "y"]]

/-- One kit emitting two targets with the same identity. -/
def dupKits : List Kit := [mkKit "KDup" [] [some "p", some "p"]]

/-- The all-successful job-outcome oracle. -/
def oracleTrue : String → Bool := fun _ => true

/-- A persisted status file recording `KitC::default` as `PASS` (spec
scenario S2). -/
def rowsCpass : Option (List (List String)) :=
  some [["id", "status"], ["KitC::default", "PASS"]]

/-! ## Statement helpers -/

/-- The target ids of a run, in expansion order. -/
def idsOf (kits : List Kit) (request : RepackRequest) : List String :=
  (allTargetsOf kits request).map (fun t => t.id)

/-- `e` is a submit event for `tid`. -/
def isSubmitOf (e : Event) (tid : String) : Bool :=
  match e with
  | .submitEv i _ => i == tid
  | _ => false

/-- Claim C1 as stated: somewhere in the trace a `RUNNING` write for `tid`
occurs strictly before a submit event for `tid`. -/
abbrev runningBeforeSubmit (evs : List Event) (tid : String) : Prop :=
  ∃ i < evs.length, ∃ j < evs.length,
    i < j ∧ evs.get? i = some (.statusEv tid .RUNNING) ∧
      isSubmitOf (evs.getD j (.callbackEv "" false)) tid = true

/-- A directed cycle in an edge list: a nonempty node list each of whose
consecutive pairs (cyclically) is an edge. -/
abbrev isCycle (edges : List (String × String)) (l : List String) : Prop :=
  l ≠ [] ∧ ∀ i < l.length, (l.getD i "", l.getD ((i + 1) % l.length) "") ∈ edges

/-- The dispatch-phase event trace is fully determined by the submission
list: one `submitEv` immediately followed by one `RUNNING` write each. -/
def eventsOfSubs (subs : List (Job × List String)) : List Event :=
  subs.flatMap (fun p => [.submitEv p.1.id p.2, .statusEv p.1.id .RUNNING])

/-- The wait-phase event trace over the submitted ids. -/
def waitEventsOf (oracle : String → Bool) (l : List String) : List Event :=
  l.flatMap (fun tid =>
    [.callbackEv tid (oracle tid),
     .statusEv tid (if oracle tid then .PASS else .FAIL)])

/-- Loop invariant of Kahn's algorithm (`kahnLoop`), over the derived edge
list, the target-id list, the current in-degree map, queue and emitted
order. -/
structure KInv (edges : List (String × String)) (ids : List String)
    (indeg : String → Int) (queue sorted : List String) : Prop where
  nodup : (sorted ++ queue).Nodup
  sortedSub : sorted ⊆ ids
  queueSub : queue ⊆ ids
  deg : ∀ v, indeg v =
    ((edgesIn edges v).length : Int) -
      ((edgesIn edges v).countP (fun a => decide (a ∈ sorted)) : Int)
  queueZero : ∀ v ∈ queue, indeg v = 0
  ordered : ∀ a b, (a, b) ∈ edges → b ∈ sorted →
    a ∈ sorted ∧ sorted.indexOf a < sorted.indexOf b

/-- What holds of the final emitted order. -/
structure SortedGood (edges : List (String × String)) (ids : List String)
    (sorted : List String) : Prop where
  nodup : sorted.Nodup
  sub : sorted ⊆ ids
  ordered : ∀ a b, (a, b) ∈ edges → b ∈ sorted →
    a ∈ sorted ∧ sorted.indexOf a < sorted.indexOf b

/-- Invariant of the inner `for v in graph_out[u]` loop of `kahnStep`,
where `done` is the processed prefix of `graph_out[u]`. -/
structure KStepInv (edges : List (String × String)) (ids : List String)
    (u : String) (sortedOld rest : List String) (done : List String)
    (indeg : String → Int) (qacc : List String) : Prop where
  nodup : ((sortedOld ++ [u]) ++ (rest ++ qacc)).Nodup
  qaccSub : qacc ⊆ ids
  zero : ∀ v ∈ rest ++ qacc, indeg v = 0
  deg : ∀ v, indeg v =
    ((edgesIn edges v).length : Int) -
      ((edgesIn edges v).countP (fun a => decide (a ∈ sortedOld)) : Int) -
      (done.count v : Int)

/-- Loop invariant of the dispatch loop (`dispatchAll`), with `E` the
derived edge list, `s1` the state right after initialization and
`processed` the prefix of the topological order already handled. -/
structure DInv (E : List (String × String)) (s1 : StateMap)
    (processed : List String) (acc : DispatchState) : Prop where
  subIds : acc.submitted = acc.submissions.map (fun p => p.1.id)
  subProcessed : acc.submitted ⊆ processed
  subNodup : acc.submitted.Nodup
  stateChar : ∀ id, get_status acc.state id =
    if id ∈ acc.submitted then .RUNNING else get_status s1 id
  processedChar : ∀ tid ∈ processed,
    tid ∈ acc.submitted ∨ (get_status s1 tid = .PASS ∧ tid ∉ acc.submitted)
  subNotPass : ∀ tid ∈ acc.submitted, get_status s1 tid ≠ .PASS
  depsChar : ∀ k p, acc.submissions.get? k = some p →
    p.1.id ∈ processed ∧
      p.2 = (edgesIn E p.1.id).filter
        (fun d => ((acc.submissions.take k).map (fun q => q.1.id)).contains d)
  eventsChar : acc.events = eventsOfSubs acc.submissions

end Repack

namespace Repack

/-! ## Basic association-list lemmas -/

theorem getKey_setKey_self {α : Type} (m : List (String × α)) (k : String) (v : α) :
    getKey (setKey m k v) k = some v := by
  induction m with
  | nil => simp [setKey, getKey]
  | cons p rest ih =>
      by_cases h : p.1 = k
      · simp [setKey, getKey, h]
      · simp [setKey, getKey, h, ih]

theorem getKey_setKey_ne {α : Type} (m : List (String × α)) (k k' : String) (v : α)
    (h : k ≠ k') : getKey (setKey m k v) k' = getKey m k' := by
  induction m with
  | nil => simp [setKey, getKey, h]
  | cons p rest ih =>
      by_cases hp : p.1 = k
      · simp [setKey, getKey, hp, h, ih]
      · simp only [setKey, if_neg hp]
        by_cases hp' : p.1 = k'
        · simp [getKey, hp']
        · simp [getKey, hp', ih]

theorem getKey_some_mem {α : Type} {m : List (String × α)} {k : String} {v : α}
    (h : getKey m k = some v) : (k, v) ∈ m := by
  induction m with
  | nil => simp [getKey] at h
  | cons p rest ih =>
      by_cases hp : p.1 = k
      · simp only [getKey, if_pos hp] at h
        obtain rfl : p.2 = v := Option.some.inj h
        have hpk : p = (k, p.2) := by
          cases p
          simp_all
        rw [← hpk]
        exact List.mem_cons_self p rest
      · simp only [getKey, if_neg hp] at h
        exact List.mem_cons_of_mem _ (ih h)

theorem get_status_set_self (m : StateMap) (id : String) (st : TargetStatus) :
    get_status (set_status m id st) id = st := by
  simp [get_status, set_status, getKey_setKey_self]

theorem get_status_set_ne (m : StateMap) (id id' : String) (st : TargetStatus)
    (h : id ≠ id') : get_status (set_status m id st) id' = get_status m id' := by
  simp [get_status, set_status, getKey_setKey_ne _ _ _ _ h]

/-! ## StateManager: reconciliation -/

theorem getKey_reconcile (ts : List KitTarget) :
    ∀ (st : StateMap) (id : String),
      getKey (reconcile st ts) id =
        match getKey st id with
        | some v => some v
        | none => if id ∈ ts.map (fun t => t.id) then some .PENDING else none := by
  induction ts with
  | nil =>
      intro st id
      simp only [reconcile, List.foldl_nil, List.map_nil, List.not_mem_nil, if_false]
      cases getKey st id <;> rfl
  | cons t ts ih =>
      intro st id
      have hstep : reconcile st (t :: ts) =
          reconcile (if (getKey st t.id).isSome then st else setKey st t.id .PENDING) ts := rfl
      rw [hstep, ih]
      by_cases hpres : (getKey st t.id).isSome
      · rw [if_pos hpres]
        cases hst : getKey st id with
        | some v => simp
        | none =>
            by_cases hid : id = t.id
            · rw [hid] at hst
              rw [hst] at hpres
              simp at hpres
            · simp [List.mem_cons, hid]
      · rw [if_neg hpres]
        by_cases hid : id = t.id
        · subst hid
          rw [getKey_setKey_self]
          rw [Option.not_isSome_iff_eq_none] at hpres
          simp [hpres, List.mem_cons]
        · rw [getKey_setKey_ne _ _ _ _ (fun h => hid h.symm)]
          cases hst : getKey st id with
          | some v => simp
          | none => simp [List.mem_cons, hid]

theorem get_status_reconcile_nil (ts : List KitTarget) (t : KitTarget)
    (ht : t ∈ ts) : get_status (reconcile [] ts) t.id = .PENDING := by
  have h := getKey_reconcile ts [] t.id
  simp only [getKey] at h
  rw [if_pos (List.mem_map_of_mem _ ht)] at h
  simp [get_status, h]

theorem mem_setKey {α : Type} {st : List (String × α)} {k : String} {v : α}
    {q : String × α} (h : q ∈ setKey st k v) : q ∈ st ∨ q = (k, v) := by
  induction st with
  | nil => simpa [setKey] using h
  | cons r st ih =>
      by_cases hr : r.1 = k
      · simp only [setKey, if_pos hr, List.mem_cons] at h
        rcases h with h | h
        · exact Or.inr (by rw [h, ← hr])
        · exact Or.inl (List.mem_cons_of_mem _ h)
      · simp only [setKey, if_neg hr, List.mem_cons] at h
        rcases h with h | h
        · exact Or.inl (by rw [h]; exact List.mem_cons_self r st)
        · rcases ih h with h2 | h2
          · exact Or.inl (List.mem_cons_of_mem _ h2)
          · exact Or.inr h2

theorem mem_reconcile (ts : List KitTarget) :
    ∀ (st : StateMap) (q : String × TargetStatus),
      q ∈ reconcile st ts → q ∈ st ∨ q.2 = .PENDING := by
  induction ts with
  | nil =>
      intro st q hq
      exact Or.inl hq
  | cons t ts ih =>
      intro st q hq
      have hq' : q ∈ reconcile
          (if (getKey st t.id).isSome then st else setKey st t.id .PENDING) ts := hq
      rcases ih _ _ hq' with h1 | h1
      · by_cases hpres : (getKey st t.id).isSome
        · rw [if_pos hpres] at h1
          exact Or.inl h1
        · rw [if_neg hpres] at h1
          rcases mem_setKey h1 with h2 | h2
          · exact Or.inl h2
          · exact Or.inr (by rw [h2])
      · exact Or.inr h1

theorem reconcile_nil_all_pending (ts : List KitTarget) :
    ∀ p ∈ reconcile [] ts, p.2 = .PENDING := by
  intro p hp
  rcases mem_reconcile ts [] p hp with h | h
  · simp at h
  · exact h

theorem full_run_state_facts (ts : List KitTarget) :
    (∀ t ∈ ts, get_status (reconcile [] ts) t.id = .PENDING) ∧
    (∀ p ∈ reconcile [] ts, p.2 = .PENDING) ∧
    (∀ t ∈ ts, [t.id, "PENDING"] ∈ serializeState (reconcile [] ts)) := by
  refine ⟨fun t ht => get_status_reconcile_nil ts t ht, reconcile_nil_all_pending ts, ?_⟩
  intro t ht
  have hg : getKey (reconcile [] ts) t.id = some .PENDING := by
    have h := getKey_reconcile ts [] t.id
    simp only [getKey] at h
    rw [if_pos (List.mem_map_of_mem _ ht)] at h
    exact h
  have hmem : (t.id, TargetStatus.PENDING) ∈ reconcile [] ts := getKey_some_mem hg
  exact List.mem_cons_of_mem _
    (List.mem_map_of_mem (fun p => [p.1, p.2.value]) hmem)

/-- C7: `StateManager.initialize` returns `true` iff the status file
existed and parsed as a CSV whose header row is `id,status` (the
incremental path); when the file is missing or does not parse that way, it
invokes the supplied clean hook exactly once, seeds every target of
`all_targets` with `PENDING`, flushes the reconciled state to disk before
returning (the file then lists every target as `PENDING`), and returns
`false`. -/
theorem claim_C7_stateManager_init_spec (fileRows : Option (List (List String)))
    (all_targets : List KitTarget) :
    ((smInitialState fileRows all_targets true).is_incremental = true ↔
      ∃ rows, fileRows = some rows ∧ rows.head? = some ["id", "status"]) ∧
    ((∀ rows, fileRows = some rows → rows.head? ≠ some ["id", "status"]) →
      (smInitialState fileRows all_targets true).is_incremental = false ∧
      (smInitialState fileRows all_targets true).cleanCalls = 1 ∧
      (∀ t ∈ all_targets,
        get_status (smInitialState fileRows all_targets true).state t.id = .PENDING) ∧
      (∀ p ∈ (smInitialState fileRows all_targets true).state, p.2 = .PENDING) ∧
      (smInitialState fileRows all_targets true).statusFile =
        serializeState (smInitialState fileRows all_targets true).state ∧
      (∀ t ∈ all_targets,
        [t.id, "PENDING"] ∈ (smInitialState fileRows all_targets true).statusFile)) := by
  rcases full_run_state_facts all_targets with ⟨hf1, hf2, hf3⟩
  cases fileRows with
  | none =>
      constructor
      · constructor
        · intro h
          simp [smInitialState] at h
        · rintro ⟨rows, h, -⟩
          cases h
      · intro _
        exact ⟨rfl, rfl, hf1, hf2, rfl, hf3⟩
  | some rows =>
      cases rows with
      | nil =>
          constructor
          · constructor
            · intro h
              simp [smInitialState] at h
            · rintro ⟨rows', h, hh⟩
              cases h
              simp at hh
          · intro _
            exact ⟨rfl, rfl, hf1, hf2, rfl, hf3⟩
      | cons header dataRows =>
          by_cases hh : header = ["id", "status"]
          · subst hh
            constructor
            · constructor
              · intro _
                exact ⟨_, rfl, rfl⟩
              · intro _
                rfl
            · intro hcontra
              exact absurd rfl (hcontra _ rfl)
          · have hred : smInitialState (some (header :: dataRows)) all_targets true =
                ⟨reconcile [] all_targets, false, 1,
                  serializeState (reconcile [] all_targets)⟩ := by
              simp [smInitialState, hh]
            constructor
            · rw [hred]
              constructor
              · intro h
                cases h
              · rintro ⟨rows', h, hhd⟩
                cases h
                simp at hhd
                exact (hh hhd).elim
            · intro _
              rw [hred]
              exact ⟨rfl, rfl, hf1, hf2, rfl, hf3⟩

/-- Witness for C7 at a concrete input: a missing status file with one
target. -/
theorem claim_C7_stateManager_init_spec_witness :
    (smInitialState none [⟨"libA", some "ss"⟩] true).is_incremental = false ∧
    (smInitialState none [⟨"libA", some "ss"⟩] true).cleanCalls = 1 ∧
    (∀ t ∈ [(⟨"libA", some "ss"⟩ : KitTarget)],
      get_status (smInitialState none [⟨"libA", some "ss"⟩] true).state t.id = .PENDING) ∧
    (∀ p ∈ (smInitialState none [⟨"libA", some "ss"⟩] true).state, p.2 = .PENDING) ∧
    (smInitialState none [⟨"libA", some "ss"⟩] true).statusFile =
      serializeState (smInitialState none [⟨"libA", some "ss"⟩] true).state ∧
    (∀ t ∈ [(⟨"libA", some "ss"⟩ : KitTarget)],
      [t.id, "PENDING"] ∈ (smInitialState none [⟨"libA", some "ss"⟩] true).statusFile) :=
  (claim_C7_stateManager_init_spec none [⟨"libA", some "ss"⟩]).2
    (fun rows h => by cases h)

/-- C8 (code bug): in the local executor, with jobs `A ← B ← C` all
submitted before `A` completes and `A`'s subprocess failing, the
dependency-failure handler for `B` calls `Future.set_exception` while
holding the executor's non-reentrant lock; the done-callback registered on
`B`'s future (for `C`) synchronously re-acquires that lock and the thread
deadlocks.  No completion callback ever fires (so none fires "exactly
once"), `C` is never executed, and `wait` can never return. -/
theorem claim_C8_local_chain_deadlock :
    localChainDemo.deadlocked = true ∧
    localChainDemo.cbFired = [] ∧
    "jobC" ∉ localChainDemo.executed ∧
    getKey localChainDemo.futures "jobB" = some .failed := by decide

/-! ## Cluster executor: submission argv and backend-id parsing (C9) -/

theorem lsf_filterMap_all_recorded (m : List (String × String)) :
    ∀ (deps : List String), (∀ d ∈ deps, ∃ s, getKey m d = some s ∧ s ≠ "") →
      (deps.filterMap (fun dep_tid =>
        match getKey m dep_tid with
        | some s => if s = "" then none else some s
        | none => none)) = deps.map (fun d => (getKey m d).getD "") := by
  intro deps
  induction deps with
  | nil => intro _; rfl
  | cons d rest ih =>
      intro h
      rcases h d (List.mem_cons_self d rest) with ⟨s, hs, hne⟩
      simp only [List.filterMap_cons, hs, if_neg hne, List.map_cons, Option.getD_some]
      rw [ih (fun x hx => h x (List.mem_cons_of_mem _ hx))]

/-- C9: for every cluster submission with a non-empty dependency list (of
deps whose backend ids were previously recorded), the generated `bsub` argv
contains the dependency expression `done(L1) && done(L2) && …` with each
`Li` the recorded backend id of that dependency's target; the backend id
is parsed from stdout by searching for `Job <digits>`, and a submission
whose stdout does not match raises (is fatal for that submission). -/
theorem claim_C9_lsf_submit_spec :
    (∀ (m : List (String × String)) (job : Job) (deps flags : List String),
      deps ≠ [] →
      (∀ d ∈ deps, ∃ s, getKey m d = some s ∧ s ≠ "") →
      buildBsub m job deps flags =
        ["bsub", "-o", job.log_path, "-e", job.log_path, "-J", job.id] ++
          ["-w", String.intercalate " && "
            (deps.map (fun d => "done(" ++ (getKey m d).getD "" ++ ")"))] ++
          flags ++ [String.intercalate " " job.command]) ∧
    (∀ out jid, parseLsfJobId out = some jid → executeBsub out = .ok jid) ∧
    (∀ out, parseLsfJobId out = none →
      executeBsub out = .error ("Could not parse LSF Job ID from: " ++ out)) := by
  refine ⟨?_, ?_, ?_⟩
  · intro m job deps flags hne hrec
    have hdepsE : deps.isEmpty = false := by
      cases deps with
      | nil => exact absurd rfl hne
      | cons a l => rfl
    have hmapE : (deps.map (fun d => (getKey m d).getD "")).isEmpty = false := by
      cases deps with
      | nil => exact absurd rfl hne
      | cons a l => rfl
    rw [buildBsub, if_neg (by rw [hdepsE]; exact Bool.false_ne_true),
        lsf_filterMap_all_recorded m deps hrec,
        if_neg (by rw [hmapE]; exact Bool.false_ne_true)]
    simp [List.map_map, Function.comp_def, List.append_assoc]
  · intro out jid h
    rw [executeBsub, h]
  · intro out h
    rw [executeBsub, h]

/-- Witness for C9 at a concrete input: two recorded deps and one
unparseable stdout. -/
theorem claim_C9_lsf_submit_spec_witness :
    (["D1", "D2"] ≠ ([] : List String)) ∧
    buildBsub [("D1", "101"), ("D2", "202")]
        { id := "T", command := ["echo", "hi"], cwd := "/tmp", log_path := "/tmp/t.log" }
        ["D1", "D2"] ["-q"] =
      ["bsub", "-o", "/tmp/t.log", "-e", "/tmp/t.log", "-J", "T",
       "-w", "done(101) && done(202)", "-q", "echo hi"] ∧
    executeBsub "nope" = .error ("Could not parse LSF Job ID from: " ++ "nope") := by
  refine ⟨by decide, ?_, ?_⟩
  · have h := claim_C9_lsf_submit_spec.1 [("D1", "101"), ("D2", "202")]
      { id := "T", command := ["echo", "hi"], cwd := "/tmp", log_path := "/tmp/t.log" }
      ["D1", "D2"] ["-q"] (by decide)
      (by
        intro d hd
        simp only [List.mem_cons, List.not_mem_nil, or_false] at hd
        rcases hd with rfl | rfl
        · exact ⟨"101", rfl, by decide⟩
        · exact ⟨"202", rfl, by decide⟩)
    rw [h]
    rfl
  · exact claim_C9_lsf_submit_spec.2.2 "nope" (by rfl)

/-! ## Cluster executor: `wait` and targets without a backend id (C10) -/

theorem lsfPollOne_unmapped_done {m : List (String × String)} {cbs : List String}
    {f : String → String} {tid : String}
    (hm : getKey m tid = none ∨ getKey m tid = some "")
    (acc : List String × List (String × Bool)) :
    tid ∈ (lsfPollOne m cbs f acc tid).1 := by
  rcases hm with hm | hm <;>
    simp [lsfPollOne, hm, List.mem_append]

theorem lsfPollOne_done_mono (m : List (String × String)) (cbs : List String)
    (f : String → String) (acc : List String × List (String × Bool)) (t : String) :
    acc.1 ⊆ (lsfPollOne m cbs f acc t).1 := by
  unfold lsfPollOne
  cases getKey m t with
  | none => intro x hx; exact List.mem_append_left _ hx
  | some s =>
      by_cases hs : s = ""
      · simp only [if_pos hs]
        intro x hx
        exact List.mem_append_left _ hx
      · simp only [if_neg hs]
        by_cases hd : f s = "DONE"
        · simp only [if_pos hd]
          intro x hx
          exact List.mem_append_left _ hx
        · simp only [if_neg hd]
          by_cases hx : f s = "EXIT"
          · simp only [if_pos hx]
            intro x hxm
            exact List.mem_append_left _ hxm
          · simp only [if_neg hx]
            exact fun x hx => hx

theorem lsfPollOne_cb_unmapped {m : List (String × String)} {cbs : List String}
    {f : String → String} {tid : String}
    (hm : getKey m tid = none ∨ getKey m tid = some "")
    (acc : List String × List (String × Bool)) (t : String) (b : Bool)
    (h : (tid, b) ∈ (lsfPollOne m cbs f acc t).2) : (tid, b) ∈ acc.2 := by
  by_cases ht : t = tid
  · subst ht
    rcases hm with hm | hm <;> simp [lsfPollOne, hm] at h <;> exact h
  · cases hk : getKey m t with
    | none =>
        simp only [lsfPollOne, hk] at h
        exact h
    | some s =>
        by_cases hs : s = ""
        · simp only [lsfPollOne, hk, if_pos hs] at h
          exact h
        · by_cases hd : f s = "DONE"
          · simp only [lsfPollOne, hk, if_neg hs, if_pos hd, List.mem_append] at h
            rcases h with h | h
            · exact h
            · by_cases hc : cbs.contains t
              · simp only [if_pos hc, List.mem_cons, List.not_mem_nil, or_false] at h
                exact absurd (Prod.ext_iff.mp h).1.symm ht
              · simp only [if_neg hc, List.not_mem_nil] at h
          · by_cases hx : f s = "EXIT"
            · simp only [lsfPollOne, hk, if_neg hs, if_neg hd, if_pos hx,
                List.mem_append] at h
              rcases h with h | h
              · exact h
              · by_cases hc : cbs.contains t
                · simp only [if_pos hc, List.mem_cons, List.not_mem_nil, or_false] at h
                  exact absurd (Prod.ext_iff.mp h).1.symm ht
                · simp only [if_neg hc, List.not_mem_nil] at h
            · simp only [lsfPollOne, hk, if_neg hs, if_neg hd, if_neg hx] at h
              exact h

theorem lsfWaitPass_fold_unmapped {m : List (String × String)} {cbs : List String}
    {f : String → String} {tid : String}
    (hm : getKey m tid = none ∨ getKey m tid = some "") :
    ∀ (pending : List String) (acc : List String × List (String × Bool)),
      (tid ∈ pending ∨ tid ∈ acc.1 →
        tid ∈ (pending.foldl (lsfPollOne m cbs f) acc).1) ∧
      (∀ b, (tid, b) ∈ (pending.foldl (lsfPollOne m cbs f) acc).2 →
        (tid, b) ∈ acc.2) := by
  intro pending
  induction pending with
  | nil =>
      intro acc
      refine ⟨?_, fun b h => h⟩
      rintro (h | h)
      · simp at h
      · exact h
  | cons t rest ih =>
      intro acc
      constructor
      · rintro (h | h)
        · rcases List.mem_cons.mp h with rfl | h2
          · exact (ih _).1 (Or.inr (lsfPollOne_unmapped_done hm acc))
          · exact (ih _).1 (Or.inl h2)
        · exact (ih _).1 (Or.inr (lsfPollOne_done_mono m cbs f acc t h))
      · intro b h
        exact lsfPollOne_cb_unmapped hm acc t b ((ih _).2 b h)

theorem lsfWaitLoop_unmapped {m : List (String × String)} {cbs : List String}
    {sts : Nat → String → String} {tid : String}
    (hm : getKey m tid = none ∨ getKey m tid = some "") :
    ∀ (fuel round : Nat) (pending : List String),
      (∀ b, (tid, b) ∉ (lsfWaitLoop m cbs sts fuel round pending).2) ∧
      (0 < fuel → tid ∉ (lsfWaitLoop m cbs sts fuel round pending).1) := by
  intro fuel
  induction fuel with
  | zero =>
      intro round pending
      exact ⟨fun b h => by simp [lsfWaitLoop] at h, fun h => absurd h (by simp)⟩
  | succ fuel ih =>
      intro round pending
      by_cases hp : pending.isEmpty
      · constructor
        · intro b h
          simp [lsfWaitLoop, hp] at h
        · intro _ h
          simp [lsfWaitLoop, hp] at h
      · have hred : lsfWaitLoop m cbs sts (fuel + 1) round pending =
            ((lsfWaitLoop m cbs sts fuel (round + 1)
                (pending.filter (fun t =>
                  !((lsfWaitPass m cbs (sts round) pending).1.contains t)))).1,
             (lsfWaitPass m cbs (sts round) pending).2 ++
               (lsfWaitLoop m cbs sts fuel (round + 1)
                 (pending.filter (fun t =>
                   !((lsfWaitPass m cbs (sts round) pending).1.contains t)))).2) := by
          rw [lsfWaitLoop, if_neg hp]
        have hnotrem : tid ∉ pending.filter (fun t =>
            !((lsfWaitPass m cbs (sts round) pending).1.contains t)) := by
          intro hmem
          have h1 := List.of_mem_filter hmem
          have h2 := List.mem_of_mem_filter hmem
          have h3 : tid ∈ (lsfWaitPass m cbs (sts round) pending).1 :=
            (lsfWaitPass_fold_unmapped hm pending ([], [])).1 (Or.inl h2)
          have h4 : (lsfWaitPass m cbs (sts round) pending).1.contains tid = true :=
            List.elem_eq_true_of_mem h3
          rw [h4] at h1
          simp at h1
        constructor
        · intro b h
          rw [hred] at h
          simp only [List.mem_append] at h
          rcases h with h | h
          · have := (lsfWaitPass_fold_unmapped hm pending ([], [])).2 b h
            simp at this
          · exact (ih (round + 1) _).1 b h
        · intro _
          rw [hred]
          cases fuel with
          | zero =>
              simp only [lsfWaitLoop]
              exact hnotrem
          | succ fuel' =>
              exact (ih (round + 1) _).2 (Nat.succ_pos _)

/-- C10: in `LSFExecutor.wait`, a listed target id with no recorded (or
falsy) backend id is dropped from the pending set in the first polling
pass, and its completion callback is never invoked — over the whole wait,
the callback for such a target fires zero times, while `wait` can still
return (pending empties) without it. -/
theorem claim_C10_lsf_wait_unmapped (m : List (String × String))
    (cbs : List String) (sts : Nat → String → String) (tid : String)
    (fuel : Nat) (job_ids : List String)
    (hm : getKey m tid = none ∨ getKey m tid = some "") (hf : 0 < fuel) :
    tid ∉ (lsfWait m cbs sts fuel job_ids).1 ∧
    ∀ b, (tid, b) ∉ (lsfWait m cbs sts fuel job_ids).2 := by
  have h := @lsfWaitLoop_unmapped m cbs sts tid hm fuel 0
    (job_ids.foldl (fun acc i => if acc.contains i then acc else acc ++ [i]) [])
  exact ⟨h.2 hf, h.1⟩

/-- Witness for C10 at a concrete input: `T2` has no backend id, `T1`
completes in the first round, `wait` returns with an empty pending set and
`T2`'s callback fired zero times. -/
theorem claim_C10_lsf_wait_unmapped_witness :
    (getKey [("T1", "101")] "T2" = none ∨ getKey [("T1", "101")] "T2" = some "") ∧
    (lsfWait [("T1", "101")] ["T1", "T2"] (fun _ _ => "DONE") 5 ["T1", "T2"]).1 = [] ∧
    "T2" ∉ (lsfWait [("T1", "101")] ["T1", "T2"] (fun _ _ => "DONE") 5 ["T1", "T2"]).1 ∧
    ∀ b, ("T2", b) ∉ (lsfWait [("T1", "101")] ["T1", "T2"] (fun _ _ => "DONE") 5 ["T1", "T2"]).2 := by
  refine ⟨Or.inl rfl, by rfl, ?_⟩
  exact claim_C10_lsf_wait_unmapped [("T1", "101")] ["T1", "T2"]
    (fun _ _ => "DONE") "T2" 5 ["T1", "T2"] (Or.inl rfl) (by decide)

/-! ## List helper lemmas for the topological-sort proofs -/

theorem nodup_append_singleton {α : Type} {l : List α} {a : α} :
    (l ++ [a]).Nodup ↔ l.Nodup ∧ a ∉ l := by
  rw [List.nodup_append]
  constructor
  · rintro ⟨h1, -, h3⟩
    exact ⟨h1, fun ha => h3 ha (List.mem_singleton_self a)⟩
  · rintro ⟨h1, h2⟩
    refine ⟨h1, List.nodup_singleton a, fun x hx hxa => ?_⟩
    rw [List.mem_singleton] at hxa
    subst hxa
    exact h2 hx

theorem indexOf_append_left {a : String} {l : List String} (t : List String)
    (h : a ∈ l) : (l ++ t).indexOf a = l.indexOf a := by
  induction l with
  | nil => simp at h
  | cons b l ih =>
      by_cases hb : b = a
      · simp [List.indexOf_cons, hb]
      · have h2 : a ∈ l := by
          rcases List.mem_cons.mp h with h | h
          · exact absurd h.symm hb
          · exact h
        simp [List.indexOf_cons, beq_iff_eq, hb, ih h2]

theorem indexOf_append_self {a : String} {l : List String} (h : a ∉ l) :
    (l ++ [a]).indexOf a = l.length := by
  induction l with
  | nil => simp [List.indexOf_cons]
  | cons b l ih =>
      have hb : ¬ b = a := fun hba => h (by rw [hba]; exact List.mem_cons_self a l)
      simp [List.indexOf_cons, beq_iff_eq, hb,
        ih (fun hm => h (List.mem_cons_of_mem _ hm))]

theorem countP_add_countP_le_length {α : Type} (p q : α → Bool) (l : List α)
    (h : ∀ x ∈ l, ¬(p x = true ∧ q x = true)) :
    l.countP p + l.countP q ≤ l.length := by
  induction l with
  | nil => simp
  | cons a l ih =>
      have ha := h a (List.mem_cons_self a l)
      have ih' := ih (fun x hx => h x (List.mem_cons_of_mem _ hx))
      rw [List.countP_cons, List.countP_cons, List.length_cons]
      by_cases hp : p a = true
      · have hq : ¬ q a = true := fun hq => ha ⟨hp, hq⟩
        rw [if_pos hp, if_neg hq]
        omega
      · rw [if_neg hp]
        by_cases hq : q a = true
        · rw [if_pos hq]
          omega
        · rw [if_neg hq]
          omega

theorem countP_mem_append_singleton {u : String} {S : List String} (hu : u ∉ S)
    (l : List String) :
    l.countP (fun a => decide (a ∈ S ++ [u])) =
      l.countP (fun a => decide (a ∈ S)) + l.count u := by
  induction l with
  | nil => simp
  | cons a l ih =>
      rw [List.countP_cons, List.countP_cons, List.count_cons, ih]
      by_cases haS : a ∈ S
      · have hau : ¬ a = u := fun h => hu (h ▸ haS)
        simp [haS, hau, List.mem_append, beq_iff_eq]
        omega
      · by_cases hau : a = u
        · subst hau
          simp [haS, List.mem_append]
          omega
        · simp [haS, hau, List.mem_append, beq_iff_eq]

theorem mem_edgesOut {E : List (String × String)} {u v : String} :
    v ∈ edgesOut E u ↔ (u, v) ∈ E := by
  simp only [edgesOut, List.mem_map, List.mem_filter]
  constructor
  · rintro ⟨⟨a, b⟩, ⟨heE, he1⟩, he2⟩
    have ha : a = u := by simpa using he1
    have hb : b = v := by simpa using he2
    subst ha
    subst hb
    exact heE
  · intro h
    exact ⟨(u, v), ⟨h, by simp⟩, rfl⟩

theorem mem_edgesIn {E : List (String × String)} {a v : String} :
    a ∈ edgesIn E v ↔ (a, v) ∈ E := by
  simp only [edgesIn, List.mem_map, List.mem_filter]
  constructor
  · rintro ⟨⟨x, y⟩, ⟨heE, he1⟩, he2⟩
    have hy : y = v := by simpa using he1
    have hx : x = a := by simpa using he2
    subst hy
    subst hx
    exact heE
  · intro h
    exact ⟨(a, v), ⟨h, by simp⟩, rfl⟩

theorem count_edgesOut_eq_count_edgesIn (E : List (String × String)) (u v : String) :
    (edgesOut E u).count v = (edgesIn E v).count u := by
  induction E with
  | nil => rfl
  | cons e E ih =>
      rcases e with ⟨a, b⟩
      by_cases ha : a = u <;> by_cases hb : b = v <;>
        simp [edgesOut, edgesIn, List.filter_cons, ha, hb, List.count_cons,
          beq_iff_eq, edgesOut, edgesIn] at ih ⊢ <;> omega

/-! ## Kahn's algorithm: invariant preservation -/

theorem kahnStep_inv (E : List (String × String)) (ids : List String)
    (hedge : ∀ p ∈ E, p.1 ∈ ids ∧ p.2 ∈ ids)
    (u : String) (sortedOld rest : List String)
    (hUS : u ∉ sortedOld)
    (hAllIn : ((edgesIn E u).countP (fun a => decide (a ∈ sortedOld)) : Int) =
      ((edgesIn E u).length : Int))
    (hOrd : ∀ a b, (a, b) ∈ E → b ∈ sortedOld →
      a ∈ sortedOld ∧ sortedOld.indexOf a < sortedOld.indexOf b) :
    ∀ (todo done : List String) (indeg : String → Int) (qacc : List String),
      edgesOut E u = done ++ todo →
      KStepInv E ids u sortedOld rest done indeg qacc →
      KStepInv E ids u sortedOld rest (edgesOut E u) (kahnStep todo indeg qacc).1
        (kahnStep todo indeg qacc).2 := by
  intro todo
  induction todo with
  | nil =>
      intro done indeg qacc hsplit hinv
      rw [List.append_nil] at hsplit
      rw [hsplit]
      exact hinv
  | cons v0 vs ih =>
      intro done indeg qacc hsplit hinv
      have hv0out : v0 ∈ edgesOut E u := by
        rw [hsplit]
        exact List.mem_append_right _ (List.mem_cons_self v0 vs)
      have huv0 : (u, v0) ∈ E := mem_edgesOut.mp hv0out
      have hv0ids : v0 ∈ ids := (hedge (u, v0) huv0).2
      have hcnt1 : (edgesIn E v0).count u = (edgesOut E u).count v0 :=
        (count_edgesOut_eq_count_edgesIn E u v0).symm
      have hcnt2 : (edgesOut E u).count v0 = done.count v0 + (v0 :: vs).count v0 := by
        rw [hsplit, List.count_append]
      have hcnt3 : 1 ≤ (v0 :: vs).count v0 := by
        rw [List.count_cons]
        simp
      have hbound : (edgesIn E v0).countP (fun a => decide (a ∈ sortedOld)) +
          (edgesIn E v0).count u ≤ (edgesIn E v0).length := by
        rw [List.count_eq_countP]
        refine countP_add_countP_le_length _ _ _ ?_
        rintro x hx ⟨hxs, hxu⟩
        rw [decide_eq_true_eq] at hxs
        rw [beq_iff_eq] at hxu
        exact hUS (hxu ▸ hxs)
      have hdegv0 := hinv.deg v0
      have hpos : 1 ≤ indeg v0 := by omega
      have hv0S : v0 ∉ sortedOld := fun hmem => hUS (hOrd u v0 huv0 hmem).1
      have hv0u : v0 ≠ u := by
        intro h
        subst h
        omega
      have hv0rq : v0 ∉ rest ++ qacc := by
        intro hmem
        have := hinv.zero v0 hmem
        omega
      have hv0fresh : v0 ∉ (sortedOld ++ [u]) ++ (rest ++ qacc) := by
        intro hmem
        rcases List.mem_append.mp hmem with h1 | h1
        · rcases List.mem_append.mp h1 with h2 | h2
          · exact hv0S h2
          · rw [List.mem_singleton] at h2
            exact hv0u h2
        · exact hv0rq h1
      have hstep : kahnStep (v0 :: vs) indeg qacc =
          kahnStep vs (fun x => if x = v0 then indeg v0 - 1 else indeg x)
            (if indeg v0 - 1 = 0 then qacc ++ [v0] else qacc) := rfl
      rw [hstep]
      have hdeg' : ∀ w, (fun x => if x = v0 then indeg v0 - 1 else indeg x) w =
          ((edgesIn E w).length : Int) -
            ((edgesIn E w).countP (fun a => decide (a ∈ sortedOld)) : Int) -
            ((done ++ [v0]).count w : Int) := by
        intro w
        rw [List.count_append]
        by_cases hw : w = v0
        · subst hw
          have hone : ([w] : List String).count w = 1 := by simp
          have hbeta : (fun x => if x = w then indeg w - 1 else indeg x) w =
              indeg w - 1 := by simp
          have hdw := hinv.deg w
          rw [hbeta, hone]
          omega
        · have hvw : ¬ v0 = w := fun h => hw h.symm
          have hzero : ([v0] : List String).count w = 0 := by
            rw [List.count_cons]
            simp [beq_iff_eq, hvw]
          have hbeta : (fun x => if x = v0 then indeg v0 - 1 else indeg x) w =
              indeg w := by simp [hw]
          have hdw := hinv.deg w
          rw [hbeta, hzero]
          omega
      by_cases hd : indeg v0 - 1 = 0
      · refine ih (done ++ [v0]) _ _ (by rw [hsplit]; simp) ?_
        rw [if_pos hd]
        refine ⟨?_, ?_, ?_, hdeg'⟩
        · have hre : (sortedOld ++ [u]) ++ (rest ++ (qacc ++ [v0])) =
              ((sortedOld ++ [u]) ++ (rest ++ qacc)) ++ [v0] := by
            simp [List.append_assoc]
          rw [hre]
          exact nodup_append_singleton.mpr ⟨hinv.nodup, hv0fresh⟩
        · intro x hx
          rcases List.mem_append.mp hx with h1 | h1
          · exact hinv.qaccSub h1
          · rw [List.mem_singleton] at h1
            subst h1
            exact hv0ids
        · intro v hv
          rcases List.mem_append.mp hv with h1 | h1
          · have hvold : v ∈ rest ++ qacc := List.mem_append_left _ h1
            have hne : ¬ v = v0 := fun h => hv0rq (h ▸ hvold)
            simp only [if_neg hne]
            exact hinv.zero v hvold
          · rcases List.mem_append.mp h1 with h2 | h2
            · have hvold : v ∈ rest ++ qacc := List.mem_append_right _ h2
              have hne : ¬ v = v0 := fun h => hv0rq (h ▸ hvold)
              simp only [if_neg hne]
              exact hinv.zero v hvold
            · rw [List.mem_singleton] at h2
              subst h2
              simp only [if_pos rfl]
              exact hd
      · refine ih (done ++ [v0]) _ _ (by rw [hsplit]; simp) ?_
        rw [if_neg hd]
        refine ⟨hinv.nodup, hinv.qaccSub, ?_, hdeg'⟩
        intro v hv
        have hne : ¬ v = v0 := fun h => hv0rq (h ▸ hv)
        simp only [if_neg hne]
        exact hinv.zero v hv

theorem kahnLoop_inv (E : List (String × String)) (ids : List String)
    (hedge : ∀ p ∈ E, p.1 ∈ ids ∧ p.2 ∈ ids) :
    ∀ (fuel : Nat) (indeg : String → Int) (queue sorted : List String),
      KInv E ids indeg queue sorted →
      SortedGood E ids (kahnLoop (edgesOut E) fuel indeg queue sorted) := by
  intro fuel
  induction fuel with
  | zero =>
      intro indeg queue sorted hinv
      exact ⟨(List.nodup_append.mp hinv.nodup).1, hinv.sortedSub, hinv.ordered⟩
  | succ fuel ih =>
      intro indeg queue sorted hinv
      cases queue with
      | nil =>
          exact ⟨(List.nodup_append.mp hinv.nodup).1, hinv.sortedSub, hinv.ordered⟩
      | cons u rest =>
          have hq0 : indeg u = 0 := hinv.queueZero u (List.mem_cons_self u rest)
          have hUS : u ∉ sorted := by
            have hd := (List.nodup_append.mp hinv.nodup).2.2
            exact fun hus => hd hus (List.mem_cons_self u rest)
          have hdegu := hinv.deg u
          have hAllIn : ((edgesIn E u).countP (fun a => decide (a ∈ sorted)) : Int) =
              ((edgesIn E u).length : Int) := by omega
          have huids : u ∈ ids := hinv.queueSub (List.mem_cons_self u rest)
          have hinner0 : KStepInv E ids u sorted rest [] indeg [] := by
            refine ⟨?_, ?_, ?_, ?_⟩
            · rw [List.append_nil]
              have hre : sorted ++ u :: rest = (sorted ++ [u]) ++ rest := by simp
              rw [← hre]
              exact hinv.nodup
            · intro x hx
              simp at hx
            · intro v hv
              rw [List.append_nil] at hv
              exact hinv.queueZero v (List.mem_cons_of_mem _ hv)
            · intro w
              simp only [List.count_nil, Nat.cast_zero, sub_zero]
              exact hinv.deg w
          have hstep := kahnStep_inv E ids hedge u sorted rest hUS hAllIn hinv.ordered
            (edgesOut E u) [] indeg [] (by simp) hinner0
          have hloopstep : kahnLoop (edgesOut E) (fuel + 1) indeg (u :: rest) sorted =
              kahnLoop (edgesOut E) fuel (kahnStep (edgesOut E u) indeg []).1
                (rest ++ (kahnStep (edgesOut E u) indeg []).2) (sorted ++ [u]) := rfl
          rw [hloopstep]
          apply ih
          refine ⟨hstep.nodup, ?_, ?_, ?_, hstep.zero, ?_⟩
          · intro x hx
            rcases List.mem_append.mp hx with h1 | h1
            · exact hinv.sortedSub h1
            · rw [List.mem_singleton] at h1
              subst h1
              exact huids
          · intro x hx
            rcases List.mem_append.mp hx with h1 | h1
            · exact hinv.queueSub (List.mem_cons_of_mem _ h1)
            · exact hstep.qaccSub h1
          · intro w
            have hd1 := hstep.deg w
            have hd2 := countP_mem_append_singleton hUS (edgesIn E w)
            have hd3 := count_edgesOut_eq_count_edgesIn E u w
            omega
          · intro a b hab hbs
            rcases List.mem_append.mp hbs with h1 | h1
            · rcases hinv.ordered a b hab h1 with ⟨haS, hidx⟩
              refine ⟨List.mem_append_left _ haS, ?_⟩
              rw [indexOf_append_left [u] haS, indexOf_append_left [u] h1]
              exact hidx
            · rw [List.mem_singleton] at h1
              subst h1
              have hain : a ∈ edgesIn E b := mem_edgesIn.mpr hab
              have hAllN : (edgesIn E b).countP (fun a => decide (a ∈ sorted)) =
                  (edgesIn E b).length := Nat.cast_inj.mp hAllIn
              have haS : a ∈ sorted := by
                have := List.countP_eq_length.mp hAllN a hain
                rwa [decide_eq_true_eq] at this
              refine ⟨List.mem_append_left _ haS, ?_⟩
              rw [indexOf_append_left [b] haS, indexOf_append_self hUS]
              exact List.indexOf_lt_length.mpr haS

/-! ## The engine's derived edge list and topological order -/

theorem kitTargetsGet_sub (kits : List Kit) (request : RepackRequest) (name : String) :
    kitTargetsGet kits request name ⊆ allTargetsOf kits request := by
  intro t ht
  cases hk : lookupKit (kitsDict kits) name with
  | none =>
      simp only [kitTargetsGet, hk] at ht
      exact absurd ht (List.not_mem_nil t)
  | some k =>
      simp only [kitTargetsGet, hk] at ht
      exact List.mem_flatMap.mpr ⟨k, List.mem_of_find?_eq_some hk, ht⟩

theorem edgeListOf_mem_ids (kits : List Kit) (request : RepackRequest) :
    ∀ p ∈ edgeListOf kits request,
      p.1 ∈ idsOf kits request ∧ p.2 ∈ idsOf kits request := by
  intro p hp
  rcases List.mem_flatMap.mp hp with ⟨target, htmem, hp2⟩
  cases hk : lookupKit (kitsDict kits) target.kit_name with
  | none =>
      simp only [hk] at hp2
      exact absurd hp2 (List.not_mem_nil p)
  | some kit =>
      simp only [hk] at hp2
      rcases List.mem_flatMap.mp hp2 with ⟨dep_name, hdmem, hp3⟩
      rcases List.mem_filterMap.mp hp3 with ⟨dt, hdtmem, hdt⟩
      by_cases hm : pvtMatch dt target = true
      · rw [if_pos hm] at hdt
        cases hdt
        constructor
        · exact List.mem_map_of_mem _ (kitTargetsGet_sub kits request dep_name hdtmem)
        · exact List.mem_map_of_mem _ htmem
      · rw [if_neg hm] at hdt
        cases hdt

theorem sortedTargetsOf_good (kits : List Kit) (request : RepackRequest)
    (hnd : (idsOf kits request).Nodup) :
    SortedGood (edgeListOf kits request) (idsOf kits request)
      (sortedTargetsOf kits request) := by
  have hq : sortedTargetsOf kits request =
      kahnLoop (edgesOut (edgeListOf kits request))
        (2 * (allTargetsOf kits request).length + 2)
        (indegInit (edgeListOf kits request))
        ((idsOf kits request).filter
          (fun tid => indegInit (edgeListOf kits request) tid == 0)) [] := rfl
  rw [hq]
  apply kahnLoop_inv _ _ (edgeListOf_mem_ids kits request)
  refine ⟨?_, ?_, ?_, ?_, ?_, ?_⟩
  · simpa using List.Nodup.filter _ hnd
  · exact List.nil_subset _
  · exact fun x hx => List.mem_of_mem_filter hx
  · intro v
    have h0 : (edgesIn (edgeListOf kits request) v).countP
        (fun a => decide (a ∈ ([] : List String))) = 0 := by
      simp
    rw [h0]
    simp [indegInit]
  · intro v hv
    have := List.of_mem_filter hv
    rwa [beq_iff_eq] at this
  · intro a b hab hbs
    simp at hbs

theorem sorted_complete (kits : List Kit) (request : RepackRequest)
    (hnd : (idsOf kits request).Nodup)
    (hlen : (sortedTargetsOf kits request).length = (allTargetsOf kits request).length) :
    ∀ x ∈ idsOf kits request, x ∈ sortedTargetsOf kits request := by
  have hgood := sortedTargetsOf_good kits request hnd
  have hlen2 : (sortedTargetsOf kits request).length = (idsOf kits request).length := by
    rw [hlen]
    simp [idsOf]
  have hsub : (sortedTargetsOf kits request).toFinset ⊆ (idsOf kits request).toFinset := by
    intro x hx
    rw [List.mem_toFinset] at hx ⊢
    exact hgood.sub hx
  have hcard1 : (sortedTargetsOf kits request).toFinset.card =
      (sortedTargetsOf kits request).length := by
    rw [List.card_toFinset, List.Nodup.dedup hgood.nodup]
  have hcard2 : (idsOf kits request).toFinset.card = (idsOf kits request).length := by
    rw [List.card_toFinset, List.Nodup.dedup hnd]
  have heq : (idsOf kits request).toFinset = (sortedTargetsOf kits request).toFinset :=
    (Finset.eq_of_subset_of_card_le hsub (by omega)).symm
  intro x hx
  have hx2 : x ∈ (idsOf kits request).toFinset := List.mem_toFinset.mpr hx
  rw [heq] at hx2
  exact List.mem_toFinset.mp hx2

theorem cycle_no_full_sort (kits : List Kit) (request : RepackRequest)
    (l : List String) (hcyc : isCycle (edgeListOf kits request) l)
    (hnd : (idsOf kits request).Nodup) :
    (sortedTargetsOf kits request).length ≠ (allTargetsOf kits request).length := by
  intro hlen
  rcases hcyc with ⟨hne, hstep⟩
  have hk : 0 < l.length := List.length_pos.mpr hne
  have hgood := sortedTargetsOf_good kits request hnd
  have hall := sorted_complete kits request hnd hlen
  have hmem : ∀ i, i < l.length → l.getD i "" ∈ sortedTargetsOf kits request := by
    intro i hi
    have hedge := hstep i hi
    exact hall _ (edgeListOf_mem_ids kits request _ hedge).1
  haveI : Nonempty (Fin l.length) := ⟨⟨0, hk⟩⟩
  obtain ⟨i0, hmax⟩ := Finite.exists_max
    (fun i : Fin l.length => (sortedTargetsOf kits request).indexOf (l.getD (i : Nat) ""))
  have hedge := hstep (i0 : Nat) i0.2
  have hbmem : l.getD (((i0 : Nat) + 1) % l.length) "" ∈ sortedTargetsOf kits request :=
    hmem _ (Nat.mod_lt _ hk)
  have hord := hgood.ordered _ _ hedge hbmem
  have hsucc : ((i0 : Nat) + 1) % l.length < l.length := Nat.mod_lt _ hk
  have h2 : (sortedTargetsOf kits request).indexOf
        (l.getD (((i0 : Nat) + 1) % l.length) "") ≤
      (sortedTargetsOf kits request).indexOf (l.getD (i0 : Nat) "") :=
    hmax ⟨((i0 : Nat) + 1) % l.length, hsucc⟩
  omega

/-! ## Unfolding lemmas for `RepackEngine.run` -/

theorem run_keyerror_case (kits : List Kit) (request : RepackRequest)
    (fileRows : Option (List (List String))) (oracle : String → Bool) (t : KitTarget)
    (hfind : (allTargetsOf kits request).find?
      (fun t => (lookupKit (kitsDict kits) t.kit_name).isNone) = some t) :
    RepackEngine.run kits request fileRows oracle =
      { error := some ("KeyError: " ++ t.kit_name)
        finalState := initStateOf kits request fileRows } := by
  unfold RepackEngine.run
  simp only [hfind]

theorem run_cycle_case (kits : List Kit) (request : RepackRequest)
    (fileRows : Option (List (List String))) (oracle : String → Bool)
    (hfind : (allTargetsOf kits request).find?
      (fun t => (lookupKit (kitsDict kits) t.kit_name).isNone) = none)
    (hlen : ¬ (sortedTargetsOf kits request).length = (allTargetsOf kits request).length) :
    RepackEngine.run kits request fileRows oracle =
      { error := some "Cycle detected in kit dependencies"
        finalState := initStateOf kits request fileRows } := by
  unfold RepackEngine.run
  simp only [hfind, if_neg hlen]

theorem run_dispatch_error_case (kits : List Kit) (request : RepackRequest)
    (fileRows : Option (List (List String))) (oracle : String → Bool) (e : String)
    (hfind : (allTargetsOf kits request).find?
      (fun t => (lookupKit (kitsDict kits) t.kit_name).isNone) = none)
    (hlen : (sortedTargetsOf kits request).length = (allTargetsOf kits request).length)
    (hdisp : dispatchAll kits request fileRows = .error e) :
    RepackEngine.run kits request fileRows oracle =
      { error := some e, finalState := initStateOf kits request fileRows } := by
  unfold RepackEngine.run
  simp only [hfind, if_pos hlen, hdisp]

theorem run_ok_case (kits : List Kit) (request : RepackRequest)
    (fileRows : Option (List (List String))) (oracle : String → Bool)
    (ds : DispatchState)
    (hfind : (allTargetsOf kits request).find?
      (fun t => (lookupKit (kitsDict kits) t.kit_name).isNone) = none)
    (hlen : (sortedTargetsOf kits request).length = (allTargetsOf kits request).length)
    (hdisp : dispatchAll kits request fileRows = .ok ds) :
    RepackEngine.run kits request fileRows oracle =
      { error := none, events := (waitPhase oracle ds).events
        finalState := (waitPhase oracle ds).state
        submissions := (waitPhase oracle ds).submissions
        submitted := (waitPhase oracle ds).submitted } := by
  unfold RepackEngine.run
  simp only [hfind, if_pos hlen, hdisp]

theorem run_ok_inversion (kits : List Kit) (request : RepackRequest)
    (fileRows : Option (List (List String))) (oracle : String → Bool)
    (h : (RepackEngine.run kits request fileRows oracle).error = none) :
    ((allTargetsOf kits request).find?
      (fun t => (lookupKit (kitsDict kits) t.kit_name).isNone) = none) ∧
    (sortedTargetsOf kits request).length = (allTargetsOf kits request).length ∧
    ∃ ds, dispatchAll kits request fileRows = .ok ds := by
  cases hf : (allTargetsOf kits request).find?
      (fun t => (lookupKit (kitsDict kits) t.kit_name).isNone) with
  | some t =>
      rw [run_keyerror_case kits request fileRows oracle t hf] at h
      simp at h
  | none =>
      by_cases hlen : (sortedTargetsOf kits request).length =
          (allTargetsOf kits request).length
      · cases hd : dispatchAll kits request fileRows with
        | error e =>
            rw [run_dispatch_error_case kits request fileRows oracle e hf hlen hd] at h
            simp at h
        | ok ds => exact ⟨rfl, hlen, ds, rfl⟩
      · rw [run_cycle_case kits request fileRows oracle hf hlen] at h
        simp at h

/-- C5 counterexample: `KX` and `KY` depend on each other (a kit-level
dependency cycle), but their targets have disjoint PVTs, so the derived
target graph has no edge; `engine.run` raises no error and submits both
jobs — contradicting the claim that a cycle in the *kit* graph raises a
cycle error with zero submissions. -/
theorem claim_C5_kit_cycle_not_detected :
    ((lookupKit (kitsDict cycKitsDisjoint) "KX").map (fun k => k.get_dependencies)) =
      some ["KY"] ∧
    ((lookupKit (kitsDict cycKitsDisjoint) "KY").map (fun k => k.get_dependencies)) =
      some ["KX"] ∧
    (RepackEngine.run cycKitsDisjoint reqD none oracleTrue).error = none ∧
    (RepackEngine.run cycKitsDisjoint reqD none oracleTrue).submissions.length = 2 := by
  decide

/-- C5 (amended): a cycle in the *derived target-level* dependency graph
(with distinct target ids and every emitted target's kit registered) makes
`engine.run` raise the configuration error
`"Cycle detected in kit dependencies"` — a fixed message that does not name
the offending kits — before submitting anything: zero submissions, zero
events.  A kit-level cycle that induces no target-level cycle is not
detected (see the counterexample). -/
theorem claim_C5_amended_target_cycle_error (kits : List Kit)
    (request : RepackRequest) (fileRows : Option (List (List String)))
    (oracle : String → Bool) (l : List String)
    (hcyc : isCycle (edgeListOf kits request) l)
    (hnd : (idsOf kits request).Nodup)
    (hkits : ∀ t ∈ allTargetsOf kits request,
      (lookupKit (kitsDict kits) t.kit_name).isSome) :
    (RepackEngine.run kits request fileRows oracle).error =
      some "Cycle detected in kit dependencies" ∧
    (RepackEngine.run kits request fileRows oracle).submissions = [] ∧
    (RepackEngine.run kits request fileRows oracle).submitted = [] ∧
    (RepackEngine.run kits request fileRows oracle).events = [] := by
  have hlen := cycle_no_full_sort kits request l hcyc hnd
  have hfind : (allTargetsOf kits request).find?
      (fun t => (lookupKit (kitsDict kits) t.kit_name).isNone) = none := by
    rw [List.find?_eq_none]
    intro t ht
    intro hcontra
    rw [Option.isNone_iff_eq_none] at hcontra
    have hsome := hkits t ht
    rw [hcontra] at hsome
    simp at hsome
  rw [run_cycle_case kits request fileRows oracle hfind hlen]
  exact ⟨rfl, rfl, rfl, rfl⟩

/-- Witness for the amended C5: two kits depending on each other with a
shared PVT produce a two-node target-level cycle; the run raises the fixed
cycle error and submits nothing. -/
theorem claim_C5_amended_target_cycle_error_witness :
    isCycle (edgeListOf cycKitsSame reqD) ["KX::p", "KY::p"] ∧
    (idsOf cycKitsSame reqD).Nodup ∧
    (RepackEngine.run cycKitsSame reqD none oracleTrue).error =
      some "Cycle detected in kit dependencies" ∧
    (RepackEngine.run cycKitsSame reqD none oracleTrue).submissions = [] := by
  refine ⟨by decide, by decide, ?_⟩
  have h := claim_C5_amended_target_cycle_error cycKitsSame reqD none oracleTrue
    ["KX::p", "KY::p"] (by decide) (by decide) (by decide)
  exact ⟨h.1, h.2.1⟩

/-- C1 counterexample: in the dispatch of a single pending target, the
claim as stated — a `RUNNING` status write strictly precedes the
`executor.submit` call for that target — fails: the engine submits first
and records `RUNNING` afterwards (manager.py lines 95-98). -/
theorem claim_C1_running_before_submit_cex :
    ¬ (∀ tid ∈ (RepackEngine.run oneKit reqD none oracleTrue).submitted,
        runningBeforeSubmit (RepackEngine.run oneKit reqD none oracleTrue).events tid) := by
  decide

/-- C3 counterexample: target `KD` has no PVT, so its identity is
`KD::ALL`, and kit `KT` (PVT-scoped target `KT::p1`) declares a dependency
on `KD`; yet no edge `KD::ALL → KT::p1` is derived, because the match
compares the raw `pvt` attribute (`None ≠ "ALL"`).  The claimed barrier
behaviour of an `::ALL`-identity target fails. -/
theorem claim_C3_none_pvt_not_barrier_cex :
    (KitTarget.mk "KD" none).id = "KD::ALL" ∧
    "KD" ∈ (mkKit "KT" ["KD"] [some "p1"]).get_dependencies ∧
    (KitTarget.mk "KD" none) ∈ allTargetsOf noneBarrierKits reqD ∧
    (KitTarget.mk "KT" (some "p1")) ∈ allTargetsOf noneBarrierKits reqD ∧
    ("KD::ALL", "KT::p1") ∉ edgeListOf noneBarrierKits reqD := by
  decide

/-- C4 counterexample: a kit emitting two targets with the same identity
`KDup::p` does not make `engine.run` raise a configuration error; the run
completes and the duplicated identity is submitted twice. -/
theorem claim_C4_duplicate_identity_not_rejected_cex :
    ¬ (idsOf dupKits reqD).Nodup ∧
    (RepackEngine.run dupKits reqD none oracleTrue).error = none ∧
    ((RepackEngine.run dupKits reqD none oracleTrue).submissions.map
      (fun p => p.1.id)) = ["KDup::p", "KDup::p"] := by
  decide

/-! ## The dispatch-phase event trace -/

theorem eventsOfSubs_append (s1 s2 : List (Job × List String)) :
    eventsOfSubs (s1 ++ s2) = eventsOfSubs s1 ++ eventsOfSubs s2 := by
  simp [eventsOfSubs, List.flatMap_append]

theorem eventsOfSubs_length (subs : List (Job × List String)) :
    (eventsOfSubs subs).length = 2 * subs.length := by
  induction subs with
  | nil => rfl
  | cons p subs ih =>
      simp only [eventsOfSubs, List.flatMap_cons] at ih ⊢
      simp [ih]
      omega

theorem eventsOfSubs_get_even (subs : List (Job × List String)) :
    ∀ (k : Nat) (p : Job × List String), subs.get? k = some p →
      (eventsOfSubs subs).get? (2 * k) = some (.submitEv p.1.id p.2) := by
  induction subs with
  | nil => intro k p h; simp at h
  | cons q subs ih =>
      intro k p h
      cases k with
      | zero =>
          simp at h
          subst h
          rfl
      | succ k =>
          simp only [List.get?] at h
          have := ih k p h
          simp only [eventsOfSubs, List.flatMap_cons]
          rw [List.get?_append_right (by simp)]
          simpa [Nat.mul_succ, Nat.succ_eq_add_one] using
            (by rw [show 2 * (k + 1) - 2 = 2 * k by omega]; exact this :
              (eventsOfSubs subs).get? (2 * (k + 1) - 2) = some (.submitEv p.1.id p.2))

theorem eventsOfSubs_get_odd (subs : List (Job × List String)) :
    ∀ (k : Nat) (p : Job × List String), subs.get? k = some p →
      (eventsOfSubs subs).get? (2 * k + 1) = some (.statusEv p.1.id .RUNNING) := by
  induction subs with
  | nil => intro k p h; simp at h
  | cons q subs ih =>
      intro k p h
      cases k with
      | zero =>
          simp at h
          subst h
          rfl
      | succ k =>
          simp only [List.get?] at h
          have := ih k p h
          simp only [eventsOfSubs, List.flatMap_cons]
          rw [List.get?_append_right (by simp; omega)]
          simpa using
            (by rw [show 2 * (k + 1) + 1 - 2 = 2 * k + 1 by omega]; exact this :
              (eventsOfSubs subs).get? (2 * (k + 1) + 1 - 2) =
                some (.statusEv p.1.id .RUNNING))

theorem eventsOfSubs_char (subs : List (Job × List String)) :
    ∀ (j : Nat) (e : Event), (eventsOfSubs subs).get? j = some e →
      ∃ k p, subs.get? k = some p ∧
        ((j = 2 * k ∧ e = .submitEv p.1.id p.2) ∨
         (j = 2 * k + 1 ∧ e = .statusEv p.1.id .RUNNING)) := by
  induction subs with
  | nil => intro j e h; simp [eventsOfSubs] at h
  | cons q subs ih =>
      intro j e h
      match j with
      | 0 =>
          refine ⟨0, q, rfl, Or.inl ⟨rfl, ?_⟩⟩
          simpa [eventsOfSubs, List.flatMap_cons] using h.symm
      | 1 =>
          refine ⟨0, q, rfl, Or.inr ⟨rfl, ?_⟩⟩
          simpa [eventsOfSubs, List.flatMap_cons] using h.symm
      | j + 2 =>
          have h2 : (eventsOfSubs subs).get? j = some e := by
            simpa [eventsOfSubs, List.flatMap_cons] using h
          rcases ih j e h2 with ⟨k, p, hget, hcase⟩
          refine ⟨k + 1, p, by simpa using hget, ?_⟩
          rcases hcase with ⟨hj, he⟩ | ⟨hj, he⟩
          · exact Or.inl ⟨by omega, he⟩
          · exact Or.inr ⟨by omega, he⟩

/-! ## The wait phase -/

theorem waitFold_spec (oracle : String → Bool) :
    ∀ (l : List String) (acc : DispatchState),
      (l.foldl (waitStep oracle) acc).submissions = acc.submissions ∧
      (l.foldl (waitStep oracle) acc).submitted = acc.submitted ∧
      (l.foldl (waitStep oracle) acc).events = acc.events ++ waitEventsOf oracle l ∧
      (∀ id, get_status (l.foldl (waitStep oracle) acc).state id =
        if id ∈ l then (if oracle id then .PASS else .FAIL)
        else get_status acc.state id) := by
  intro l
  induction l with
  | nil =>
      intro acc
      refine ⟨rfl, rfl, by simp [waitEventsOf], ?_⟩
      intro id
      simp
  | cons tid l ih =>
      intro acc
      have hstep : (tid :: l).foldl (waitStep oracle) acc =
          l.foldl (waitStep oracle) (waitStep oracle acc tid) := rfl
      rcases ih (waitStep oracle acc tid) with ⟨h1, h2, h3, h4⟩
      rw [hstep]
      refine ⟨h1, h2, ?_, ?_⟩
      · rw [h3]
        simp [waitStep, waitEventsOf, List.flatMap_cons]
      · intro id
        rw [h4 id]
        by_cases hid : id ∈ l
        · simp [hid, List.mem_cons]
        · by_cases hidt : id = tid
          · subst hidt
            simp [hid, waitStep, get_status_set_self]
          · have : ¬ id ∈ tid :: l := by
              rw [List.mem_cons]
              rintro (h | h)
              · exact hidt h
              · exact hid h
            simp only [if_neg hid, if_neg this]
            simp [waitStep]
            rw [get_status_set_ne _ _ _ _ (fun h => hidt h.symm)]

theorem waitPhase_submissions (oracle : String → Bool) (ds : DispatchState) :
    (waitPhase oracle ds).submissions = ds.submissions :=
  (waitFold_spec oracle ds.submitted ds).1

theorem waitPhase_submitted (oracle : String → Bool) (ds : DispatchState) :
    (waitPhase oracle ds).submitted = ds.submitted :=
  (waitFold_spec oracle ds.submitted ds).2.1

theorem waitPhase_events (oracle : String → Bool) (ds : DispatchState) :
    (waitPhase oracle ds).events = ds.events ++ waitEventsOf oracle ds.submitted :=
  (waitFold_spec oracle ds.submitted ds).2.2.1

theorem waitPhase_state (oracle : String → Bool) (ds : DispatchState) :
    ∀ id, get_status (waitPhase oracle ds).state id =
      if id ∈ ds.submitted then (if oracle id then .PASS else .FAIL)
      else get_status ds.state id :=
  (waitFold_spec oracle ds.submitted ds).2.2.2

/-! ## The dispatch loop -/

theorem dispatchOne_ok_cases (kits : List Kit) (request : RepackRequest)
    (acc out : DispatchState) (tid : String)
    (hok : dispatchOne kits request acc tid = .ok out) :
    (get_status acc.state tid = .PASS ∧ out = acc) ∨
    (get_status acc.state tid ≠ .PASS ∧
      ∃ job : Job, job.id = tid ∧
        out = { state := set_status acc.state tid .RUNNING
                submitted := if acc.submitted.contains tid then acc.submitted
                             else acc.submitted ++ [tid]
                submissions := acc.submissions ++
                  [(job, (edgesIn (edgeListOf kits request) tid).filter
                      (fun d => acc.submitted.contains d))]
                events := acc.events ++
                  [.submitEv tid ((edgesIn (edgeListOf kits request) tid).filter
                      (fun d => acc.submitted.contains d)),
                   .statusEv tid .RUNNING] }) := by
  by_cases hst : get_status acc.state tid = .PASS
  · left
    refine ⟨hst, ?_⟩
    simp only [dispatchOne, if_pos hst] at hok
    exact (Except.ok.inj hok).symm
  · right
    refine ⟨hst, ?_⟩
    cases htm : targetMapGet kits request tid with
    | none =>
        simp only [dispatchOne, if_neg hst, htm] at hok
        cases hok
    | some target =>
        cases hlk : lookupKit (kitsDict kits) target.kit_name with
        | none =>
            simp only [dispatchOne, if_neg hst, htm, hlk] at hok
            cases hok
        | some kit =>
            simp only [dispatchOne, if_neg hst, htm, hlk] at hok
            exact ⟨{ id := tid, command := kit.construct_command target request
                     cwd := kit.get_output_path request
                     log_path := kit.get_output_path request ++ "/" ++ tid ++ ".log" },
                   rfl, (Except.ok.inj hok).symm⟩

theorem dispatchOne_ok_inv (kits : List Kit) (request : RepackRequest)
    (s1 : StateMap) (pre : List String) (acc out : DispatchState) (tid : String)
    (hnotpre : tid ∉ pre)
    (hok : dispatchOne kits request acc tid = .ok out)
    (hinv : DInv (edgeListOf kits request) s1 pre acc) :
    DInv (edgeListOf kits request) s1 (pre ++ [tid]) out := by
  have hnotsub : tid ∉ acc.submitted := fun h => hnotpre (hinv.subProcessed h)
  have hcont : acc.submitted.contains tid = false := by
    by_contra hc
    rw [Bool.not_eq_false] at hc
    exact hnotsub (List.elem_iff.mp hc)
  rcases dispatchOne_ok_cases kits request acc out tid hok with
    ⟨hst, hout⟩ | ⟨hst, job, hjid, hout⟩
  · subst hout
    have hs1pass : get_status s1 tid = .PASS := by
      have hsc := hinv.stateChar tid
      rw [if_neg hnotsub] at hsc
      rw [← hsc]
      exact hst
    refine ⟨hinv.subIds, ?_, hinv.subNodup, hinv.stateChar, ?_, hinv.subNotPass,
      ?_, hinv.eventsChar⟩
    · exact fun x hx => List.mem_append_left _ (hinv.subProcessed hx)
    · intro t ht
      rcases List.mem_append.mp ht with h1 | h1
      · rcases hinv.processedChar t h1 with h2 | h2
        · exact Or.inl h2
        · exact Or.inr h2
      · rw [List.mem_singleton] at h1
        subst h1
        exact Or.inr ⟨hs1pass, hnotsub⟩
    · intro k p hk
      rcases hinv.depsChar k p hk with ⟨h1, h2⟩
      exact ⟨List.mem_append_left _ h1, h2⟩
  · have hs1 : get_status s1 tid ≠ .PASS := by
      have hsc := hinv.stateChar tid
      rw [if_neg hnotsub] at hsc
      rw [← hsc]
      exact hst
    have hif : (if acc.submitted.contains tid = true then acc.submitted
        else acc.submitted ++ [tid]) = acc.submitted ++ [tid] := by
      rw [hcont]
      simp
    subst hout
    rw [hif]
    refine ⟨?_, ?_, ?_, ?_, ?_, ?_, ?_, ?_⟩
    · -- subIds
      dsimp only
      rw [List.map_append, ← hinv.subIds]
      simp [hjid]
    · -- subProcessed
      dsimp only
      intro x hx
      rcases List.mem_append.mp hx with h1 | h1
      · exact List.mem_append_left _ (hinv.subProcessed h1)
      · exact List.mem_append_right _ h1
    · -- subNodup
      dsimp only
      exact nodup_append_singleton.mpr ⟨hinv.subNodup, hnotsub⟩
    · -- stateChar
      dsimp only
      intro id
      by_cases hid : id = tid
      · subst hid
        rw [get_status_set_self, if_pos (List.mem_append_right _ (List.mem_singleton_self id))]
      · rw [get_status_set_ne _ _ _ _ (fun h => hid h.symm)]
        have hsc := hinv.stateChar id
        rw [hsc]
        by_cases hmem : id ∈ acc.submitted
        · rw [if_pos hmem, if_pos (List.mem_append_left _ hmem)]
        · rw [if_neg hmem, if_neg]
          intro hcontra
          rcases List.mem_append.mp hcontra with h1 | h1
          · exact hmem h1
          · rw [List.mem_singleton] at h1
            exact hid h1
    · -- processedChar
      dsimp only
      intro t ht
      rcases List.mem_append.mp ht with h1 | h1
      · rcases hinv.processedChar t h1 with h2 | h2
        · exact Or.inl (List.mem_append_left _ h2)
        · refine Or.inr ⟨h2.1, ?_⟩
          intro hcontra
          rcases List.mem_append.mp hcontra with h3 | h3
          · exact h2.2 h3
          · rw [List.mem_singleton] at h3
            subst h3
            exact hnotpre h1
      · rw [List.mem_singleton] at h1
        subst h1
        exact Or.inl (List.mem_append_right _ (List.mem_singleton_self t))
    · -- subNotPass
      dsimp only
      intro t ht
      rcases List.mem_append.mp ht with h1 | h1
      · exact hinv.subNotPass t h1
      · rw [List.mem_singleton] at h1
        subst h1
        exact hs1
    · -- depsChar
      dsimp only
      intro k p hk
      have hlen : k < acc.submissions.length + 1 := by
        have := (List.get?_eq_some.mp hk).1
        simpa using this
      by_cases hklt : k < acc.submissions.length
      · rw [List.get?_append hklt] at hk
        rcases hinv.depsChar k p hk with ⟨h1, h2⟩
        refine ⟨List.mem_append_left _ h1, ?_⟩
        rw [List.take_append_of_le_length (Nat.le_of_lt hklt)]
        exact h2
      · have hkeq : k = acc.submissions.length := by omega
        subst hkeq
        rw [List.get?_concat_length] at hk
        have hp := Option.some.inj hk
        subst hp
        refine ⟨?_, ?_⟩
        · dsimp only
          rw [hjid]
          exact List.mem_append_right _ (List.mem_singleton_self tid)
        · dsimp only
          rw [List.take_left, hjid, ← hinv.subIds]
    · -- eventsChar
      dsimp only
      rw [eventsOfSubs_append, hinv.eventsChar]
      simp [eventsOfSubs, List.flatMap_cons, hjid]

theorem dispatch_fold_inv (kits : List Kit) (request : RepackRequest) (s1 : StateMap) :
    ∀ (l pre : List String) (acc out : DispatchState),
      (pre ++ l).Nodup →
      List.foldlM (dispatchOne kits request) acc l = .ok out →
      DInv (edgeListOf kits request) s1 pre acc →
      DInv (edgeListOf kits request) s1 (pre ++ l) out := by
  intro l
  induction l with
  | nil =>
      intro pre acc out hnd hok hinv
      rw [List.foldlM_nil] at hok
      have heq : acc = out := Except.ok.inj hok
      subst heq
      simpa using hinv
  | cons tid l ih =>
      intro pre acc out hnd hok hinv
      rw [List.foldlM_cons] at hok
      cases hone : dispatchOne kits request acc tid with
      | error e =>
          rw [hone] at hok
          have hok2 : (Except.error e : Except String DispatchState) = .ok out := hok
          cases hok2
      | ok acc' =>
          rw [hone] at hok
          have hok' : List.foldlM (dispatchOne kits request) acc' l = .ok out := hok
          have hnotpre : tid ∉ pre := by
            have hdisj := (List.nodup_append.mp hnd).2.2
            exact fun hp => hdisj hp (List.mem_cons_self tid l)
          have hres := ih (pre ++ [tid]) acc' out
            (by rw [List.append_assoc]; exact hnd) hok'
            (dispatchOne_ok_inv kits request s1 pre acc acc' tid hnotpre hone hinv)
          rw [List.append_assoc] at hres
          exact hres

theorem dispatchOne_error_shape (kits : List Kit) (request : RepackRequest)
    (acc : DispatchState) (tid : String) (e : String)
    (h : dispatchOne kits request acc tid = .error e) :
    ∃ k, e = "KeyError: " ++ k := by
  by_cases hst : get_status acc.state tid = .PASS
  · simp only [dispatchOne, if_pos hst] at h
    cases h
  · cases htm : targetMapGet kits request tid with
    | none =>
        simp only [dispatchOne, if_neg hst, htm] at h
        exact ⟨tid, (Except.error.inj h).symm⟩
    | some target =>
        cases hlk : lookupKit (kitsDict kits) target.kit_name with
        | none =>
            simp only [dispatchOne, if_neg hst, htm, hlk] at h
            exact ⟨target.kit_name, (Except.error.inj h).symm⟩
        | some kit =>
            simp only [dispatchOne, if_neg hst, htm, hlk] at h
            cases h

theorem dispatchAll_error_shape (kits : List Kit) (request : RepackRequest) :
    ∀ (l : List String) (acc : DispatchState) (e : String),
      List.foldlM (dispatchOne kits request) acc l = .error e →
      ∃ k, e = "KeyError: " ++ k := by
  intro l
  induction l with
  | nil =>
      intro acc e h
      rw [List.foldlM_nil] at h
      cases h
  | cons tid l ih =>
      intro acc e h
      rw [List.foldlM_cons] at h
      cases hone : dispatchOne kits request acc tid with
      | error e' =>
          rw [hone] at h
          have h2 : (Except.error e' : Except String DispatchState) = .error e := h
          have heq : e' = e := Except.error.inj h2
          subst heq
          exact dispatchOne_error_shape kits request acc tid e' hone
      | ok acc' =>
          rw [hone] at h
          exact ih acc' e h

theorem dispatchAll_inv (kits : List Kit) (request : RepackRequest)
    (fileRows : Option (List (List String))) (ds : DispatchState)
    (hnd : (sortedTargetsOf kits request).Nodup)
    (hdisp : dispatchAll kits request fileRows = .ok ds) :
    DInv (edgeListOf kits request) (initStateOf kits request fileRows)
      (sortedTargetsOf kits request) ds := by
  have h0 : DInv (edgeListOf kits request) (initStateOf kits request fileRows) []
      { state := initStateOf kits request fileRows
        submitted := [], submissions := [], events := [] } := by
    refine ⟨rfl, ?_, List.nodup_nil, ?_, ?_, ?_, ?_, rfl⟩
    · exact fun x hx => absurd hx (List.not_mem_nil x)
    · intro id
      rw [if_neg (List.not_mem_nil id)]
    · intro t ht
      exact absurd ht (List.not_mem_nil t)
    · intro t ht
      exact absurd ht (List.not_mem_nil t)
    · intro k p hk
      simp at hk
  have hres := dispatch_fold_inv kits request (initStateOf kits request fileRows)
    (sortedTargetsOf kits request) [] _ ds (by simpa using hnd) hdisp h0
  simpa using hres

/-- C2: for every run in which `engine.run` returns normally (and whose
target identities are distinct, invariant I5), every target produced by
the kits ends with status `PASS` or `FAIL` in the state map; none remains
`RUNNING` or `PENDING`. -/
theorem claim_C2_all_terminal_after_run (kits : List Kit) (request : RepackRequest)
    (fileRows : Option (List (List String))) (oracle : String → Bool)
    (hnd : (idsOf kits request).Nodup)
    (hok : (RepackEngine.run kits request fileRows oracle).error = none) :
    ∀ t ∈ allTargetsOf kits request,
      get_status (RepackEngine.run kits request fileRows oracle).finalState t.id =
        .PASS ∨
      get_status (RepackEngine.run kits request fileRows oracle).finalState t.id =
        .FAIL := by
  obtain ⟨hfind, hlen, ds, hdisp⟩ := run_ok_inversion kits request fileRows oracle hok
  have hgood := sortedTargetsOf_good kits request hnd
  have hinv := dispatchAll_inv kits request fileRows ds hgood.nodup hdisp
  rw [run_ok_case kits request fileRows oracle ds hfind hlen hdisp]
  intro t ht
  have hts : t.id ∈ sortedTargetsOf kits request :=
    sorted_complete kits request hnd hlen t.id (List.mem_map_of_mem _ ht)
  have hwait := waitPhase_state oracle ds t.id
  dsimp only
  rw [hwait]
  by_cases hsub : t.id ∈ ds.submitted
  · rw [if_pos hsub]
    by_cases horc : oracle t.id = true
    · rw [if_pos horc]
      exact Or.inl rfl
    · rw [if_neg horc]
      exact Or.inr rfl
  · rw [if_neg hsub]
    have hsc := hinv.stateChar t.id
    rw [if_neg hsub] at hsc
    rw [hsc]
    rcases hinv.processedChar t.id hts with h1 | h1
    · exact absurd h1 hsub
    · exact Or.inl h1.1

/-- Witness for C2: the three-kit chain, full run, all jobs succeed. -/
theorem claim_C2_all_terminal_after_run_witness :
    (idsOf chainKits reqD).Nodup ∧
    (RepackEngine.run chainKits reqD none oracleTrue).error = none ∧
    ∀ t ∈ allTargetsOf chainKits reqD,
      get_status (RepackEngine.run chainKits reqD none oracleTrue).finalState t.id =
        .PASS ∨
      get_status (RepackEngine.run chainKits reqD none oracleTrue).finalState t.id =
        .FAIL := by
  refine ⟨by decide, by decide, ?_⟩
  exact claim_C2_all_terminal_after_run chainKits reqD none oracleTrue
    (by decide) (by decide)

/-- C1 (amended): for every target the engine dispatches, the
`executor.submit` call comes first and the `RUNNING` status write is
recorded immediately after it — never before (manager.py:95-98 submit,
then add to the submitted set, then `set_status(RUNNING)`).  The claim as
stated (RUNNING strictly before submit) is refuted by the
counterexample. -/
theorem claim_C1_amended_running_after_submit (kits : List Kit)
    (request : RepackRequest) (fileRows : Option (List (List String)))
    (oracle : String → Bool)
    (hnd : (idsOf kits request).Nodup)
    (hok : (RepackEngine.run kits request fileRows oracle).error = none) :
    ∀ tid ∈ (RepackEngine.run kits request fileRows oracle).submitted,
      ∃ i deps,
        (RepackEngine.run kits request fileRows oracle).events.get? i =
          some (.submitEv tid deps) ∧
        (RepackEngine.run kits request fileRows oracle).events.get? (i + 1) =
          some (.statusEv tid .RUNNING) ∧
        ∀ j, j < i →
          (RepackEngine.run kits request fileRows oracle).events.get? j ≠
            some (.statusEv tid .RUNNING) := by
  obtain ⟨hfind, hlen, ds, hdisp⟩ := run_ok_inversion kits request fileRows oracle hok
  have hgood := sortedTargetsOf_good kits request hnd
  have hinv := dispatchAll_inv kits request fileRows ds hgood.nodup hdisp
  rw [run_ok_case kits request fileRows oracle ds hfind hlen hdisp]
  intro tid htid
  dsimp only at htid ⊢
  rw [waitPhase_submitted] at htid
  rw [waitPhase_events, hinv.eventsChar]
  have htid2 : tid ∈ ds.submissions.map (fun p => p.1.id) := by
    rw [← hinv.subIds]
    exact htid
  rcases List.mem_map.mp htid2 with ⟨p, hpmem, hpid⟩
  rcases List.mem_iff_get?.mp hpmem with ⟨k, hk⟩
  have hklt : k < ds.submissions.length := (List.get?_eq_some.mp hk).1
  have hevlen : (eventsOfSubs ds.submissions).length = 2 * ds.submissions.length :=
    eventsOfSubs_length ds.submissions
  refine ⟨2 * k, p.2, ?_, ?_, ?_⟩
  · rw [List.get?_append (by omega)]
    rw [eventsOfSubs_get_even ds.submissions k p hk, hpid]
  · rw [List.get?_append (by omega)]
    rw [eventsOfSubs_get_odd ds.submissions k p hk, hpid]
  · intro j hj hcontra
    rw [List.get?_append (by omega)] at hcontra
    rcases eventsOfSubs_char ds.submissions j _ hcontra with ⟨k', p', hk', hcase⟩
    have hmapnd : (ds.submissions.map (fun p => p.1.id)).Nodup := by
      rw [← hinv.subIds]
      exact hinv.subNodup
    rcases hcase with ⟨hjk, he⟩ | ⟨hjk, he⟩
    · cases he
    · have hpid' : p'.1.id = tid := (Event.statusEv.inj he.symm).1
      have hk'lt : k' < ds.submissions.length := (List.get?_eq_some.mp hk').1
      have hg1 : (ds.submissions.map (fun p => p.1.id)).get? k' = some tid := by
        rw [List.get?_map, hk']
        simp [hpid']
      have hg2 : (ds.submissions.map (fun p => p.1.id)).get? k = some tid := by
        rw [List.get?_map, hk]
        simp [hpid]
      have hkk : k' = k := List.get?_inj (by simpa using hk'lt) hmapnd (hg1.trans hg2.symm)
      omega

/-- Witness for the amended C1: the three-kit chain, full run. -/
theorem claim_C1_amended_running_after_submit_witness :
    (idsOf chainKits reqD).Nodup ∧
    (RepackEngine.run chainKits reqD none oracleTrue).error = none ∧
    ∀ tid ∈ (RepackEngine.run chainKits reqD none oracleTrue).submitted,
      ∃ i deps,
        (RepackEngine.run chainKits reqD none oracleTrue).events.get? i =
          some (.submitEv tid deps) ∧
        (RepackEngine.run chainKits reqD none oracleTrue).events.get? (i + 1) =
          some (.statusEv tid .RUNNING) ∧
        ∀ j, j < i →
          (RepackEngine.run chainKits reqD none oracleTrue).events.get? j ≠
            some (.statusEv tid .RUNNING) := by
  refine ⟨by decide, by decide, ?_⟩
  exact claim_C1_amended_running_after_submit chainKits reqD none oracleTrue
    (by decide) (by decide)

/-- C6: during dispatch, a target whose state at run start is `PASS` is
skipped (never submitted, never in the submitted set); every other target
is submitted exactly once, and its dependency list contains exactly those
graph predecessors that were themselves submitted earlier in the run
(`PASS`-skipped predecessors are excluded, since they are never in the
submitted set). -/
theorem claim_C6_skip_and_residual_deps (kits : List Kit)
    (request : RepackRequest) (fileRows : Option (List (List String)))
    (oracle : String → Bool)
    (hnd : (idsOf kits request).Nodup)
    (hok : (RepackEngine.run kits request fileRows oracle).error = none) :
    ∀ t ∈ allTargetsOf kits request,
      (get_status (initStateOf kits request fileRows) t.id = .PASS →
        t.id ∉ (RepackEngine.run kits request fileRows oracle).submitted ∧
        ∀ p ∈ (RepackEngine.run kits request fileRows oracle).submissions,
          p.1.id ≠ t.id) ∧
      (get_status (initStateOf kits request fileRows) t.id ≠ .PASS →
        ∃ k p,
          (RepackEngine.run kits request fileRows oracle).submissions.get? k =
            some p ∧
          p.1.id = t.id ∧
          ∀ d, d ∈ p.2 ↔
            (d ∈ edgesIn (edgeListOf kits request) t.id ∧
             d ∈ (((RepackEngine.run kits request fileRows oracle).submissions.take
                k).map (fun q => q.1.id)))) := by
  obtain ⟨hfind, hlen, ds, hdisp⟩ := run_ok_inversion kits request fileRows oracle hok
  have hgood := sortedTargetsOf_good kits request hnd
  have hinv := dispatchAll_inv kits request fileRows ds hgood.nodup hdisp
  rw [run_ok_case kits request fileRows oracle ds hfind hlen hdisp]
  intro t ht
  dsimp only
  rw [waitPhase_submitted, waitPhase_submissions]
  have hts : t.id ∈ sortedTargetsOf kits request :=
    sorted_complete kits request hnd hlen t.id (List.mem_map_of_mem _ ht)
  constructor
  · intro hpass
    constructor
    · exact fun hsub => hinv.subNotPass t.id hsub hpass
    · intro p hpmem hpid
      have : t.id ∈ ds.submitted := by
        rw [hinv.subIds]
        exact hpid ▸ List.mem_map_of_mem _ hpmem
      exact hinv.subNotPass t.id this hpass
  · intro hnp
    have hsub : t.id ∈ ds.submitted := by
      rcases hinv.processedChar t.id hts with h1 | h1
      · exact h1
      · exact absurd h1.1 hnp
    have htid2 : t.id ∈ ds.submissions.map (fun p => p.1.id) := by
      rw [← hinv.subIds]
      exact hsub
    rcases List.mem_map.mp htid2 with ⟨p, hpmem, hpid⟩
    rcases List.mem_iff_get?.mp hpmem with ⟨k, hk⟩
    rcases hinv.depsChar k p hk with ⟨-, hdeps⟩
    rw [hpid] at hdeps
    refine ⟨k, p, hk, hpid, ?_⟩
    intro d
    rw [hdeps, List.mem_filter]
    constructor
    · rintro ⟨h1, h2⟩
      exact ⟨h1, List.elem_iff.mp h2⟩
    · rintro ⟨h1, h2⟩
      exact ⟨h1, List.elem_iff.mpr h2⟩

/-- Witness for C6: the chain with `KitC::default` recorded `PASS`
(spec scenario S2), instantiated at target `KitB::default`. -/
theorem claim_C6_skip_and_residual_deps_witness :
    (idsOf chainKits reqD).Nodup ∧
    (RepackEngine.run chainKits reqD rowsCpass oracleTrue).error = none ∧
    KitTarget.mk "KitB" (some "default") ∈ allTargetsOf chainKits reqD ∧
    ((get_status (initStateOf chainKits reqD rowsCpass)
        (KitTarget.mk "KitB" (some "default")).id = .PASS →
      (KitTarget.mk "KitB" (some "default")).id ∉
        (RepackEngine.run chainKits reqD rowsCpass oracleTrue).submitted ∧
      ∀ p ∈ (RepackEngine.run chainKits reqD rowsCpass oracleTrue).submissions,
        p.1.id ≠ (KitTarget.mk "KitB" (some "default")).id) ∧
     (get_status (initStateOf chainKits reqD rowsCpass)
        (KitTarget.mk "KitB" (some "default")).id ≠ .PASS →
      ∃ k p,
        (RepackEngine.run chainKits reqD rowsCpass oracleTrue).submissions.get? k =
          some p ∧
        p.1.id = (KitTarget.mk "KitB" (some "default")).id ∧
        ∀ d, d ∈ p.2 ↔
          (d ∈ edgesIn (edgeListOf chainKits reqD)
              (KitTarget.mk "KitB" (some "default")).id ∧
           d ∈ (((RepackEngine.run chainKits reqD rowsCpass
              oracleTrue).submissions.take k).map (fun q => q.1.id))))) := by
  refine ⟨by decide, by decide, by decide, ?_⟩
  exact claim_C6_skip_and_residual_deps chainKits reqD rowsCpass oracleTrue
    (by decide) (by decide) (KitTarget.mk "KitB" (some "default")) (by decide)

/-- C4 (amended): the engine performs no duplicate-identity check: the
only errors `engine.run` ever raises are the cycle error and a
missing-kit `KeyError`; a run whose targets contain a duplicated identity
proceeds without error and submits the duplicated identity once per
occurrence in the topological order. -/
theorem claim_C4_amended_no_duplicate_check :
    (∀ (kits : List Kit) (request : RepackRequest)
        (fileRows : Option (List (List String))) (oracle : String → Bool)
        (msg : String),
      (RepackEngine.run kits request fileRows oracle).error = some msg →
      msg = "Cycle detected in kit dependencies" ∨
        ∃ k, msg = "KeyError: " ++ k) ∧
    ((RepackEngine.run dupKits reqD none oracleTrue).error = none ∧
      ((RepackEngine.run dupKits reqD none oracleTrue).submissions.map
        (fun p => p.1.id)) = ["KDup::p", "KDup::p"]) := by
  constructor
  · intro kits request fileRows oracle msg hmsg
    cases hf : (allTargetsOf kits request).find?
        (fun t => (lookupKit (kitsDict kits) t.kit_name).isNone) with
    | some t =>
        rw [run_keyerror_case kits request fileRows oracle t hf] at hmsg
        exact Or.inr ⟨t.kit_name, (Option.some.inj hmsg).symm⟩
    | none =>
        by_cases hlen : (sortedTargetsOf kits request).length =
            (allTargetsOf kits request).length
        · cases hd : dispatchAll kits request fileRows with
          | error e =>
              rw [run_dispatch_error_case kits request fileRows oracle e hf hlen hd]
                at hmsg
              have heq : e = msg := Option.some.inj hmsg
              subst heq
              exact Or.inr (dispatchAll_error_shape kits request _ _ _ hd)
          | ok ds =>
              rw [run_ok_case kits request fileRows oracle ds hf hlen hd] at hmsg
              cases hmsg
        · rw [run_cycle_case kits request fileRows oracle hf hlen] at hmsg
          exact Or.inl (Option.some.inj hmsg).symm
  · exact ⟨by decide, by decide⟩

/-- Witness for the amended C4, discharging the error hypothesis at the
concrete two-kit target-level cycle. -/
theorem claim_C4_amended_no_duplicate_check_witness :
    (RepackEngine.run cycKitsSame reqD none oracleTrue).error =
      some "Cycle detected in kit dependencies" ∧
    ("Cycle detected in kit dependencies" = "Cycle detected in kit dependencies" ∨
      ∃ k, "Cycle detected in kit dependencies" = "KeyError: " ++ k) := by
  refine ⟨by decide, ?_⟩
  exact claim_C4_amended_no_duplicate_check.1 cycKitsSame reqD none oracleTrue
    "Cycle detected in kit dependencies" (by decide)

theorem pvtMatch_iff (d t : KitTarget) :
    pvtMatch d t = true ↔
      (d.pvt = t.pvt ∨ d.pvt = some "ALL" ∨ t.pvt = some "ALL") := by
  simp [pvtMatch, Bool.or_eq_true, beq_iff_eq, or_assoc]

/-- C3 (amended): the engine adds the edge `d.id → t.id` iff `t`'s kit
lists `d`'s kit among its dependencies and the PVT match
`d.pvt == t.pvt or d.pvt == "ALL" or t.pvt == "ALL"` holds on the raw
`pvt` attributes — the literal string `"ALL"`, not the `::ALL` identity
suffix.  A target with `pvt = None` has identity suffix `::ALL` but
matches only targets whose `pvt` is also `None` or literally `"ALL"`; it
is *not* a barrier to PVT-scoped targets (see the counterexample). -/
theorem claim_C3_amended_edge_characterization (kits : List Kit)
    (request : RepackRequest) (a b : String) :
    (a, b) ∈ edgeListOf kits request ↔
      ∃ t ∈ allTargetsOf kits request,
        ∃ K, lookupKit (kitsDict kits) t.kit_name = some K ∧
          ∃ dname ∈ K.get_dependencies,
            ∃ d ∈ kitTargetsGet kits request dname,
              (d.pvt = t.pvt ∨ d.pvt = some "ALL" ∨ t.pvt = some "ALL") ∧
              a = d.id ∧ b = t.id := by
  constructor
  · intro hmem
    rcases List.mem_flatMap.mp hmem with ⟨t, htmem, hp2⟩
    cases hk : lookupKit (kitsDict kits) t.kit_name with
    | none =>
        simp only [hk] at hp2
        exact absurd hp2 (List.not_mem_nil _)
    | some K =>
        simp only [hk] at hp2
        rcases List.mem_flatMap.mp hp2 with ⟨dname, hdn, hp3⟩
        rcases List.mem_filterMap.mp hp3 with ⟨d, hdmem, hd⟩
        by_cases hm : pvtMatch d t = true
        · rw [if_pos hm] at hd
          have hpair := Option.some.inj hd
          refine ⟨t, htmem, K, hk, dname, hdn, d, hdmem,
            (pvtMatch_iff d t).mp hm, ?_, ?_⟩
          · exact (Prod.ext_iff.mp hpair).1.symm
          · exact (Prod.ext_iff.mp hpair).2.symm
        · rw [if_neg hm] at hd
          cases hd
  · rintro ⟨t, htmem, K, hk, dname, hdn, d, hdmem, hmatch, rfl, rfl⟩
    refine List.mem_flatMap.mpr ⟨t, htmem, ?_⟩
    simp only [hk]
    refine List.mem_flatMap.mpr ⟨dname, hdn, ?_⟩
    refine List.mem_filterMap.mpr ⟨d, hdmem, ?_⟩
    rw [if_pos ((pvtMatch_iff d t).mpr hmatch)]

end Repack
